import Mathlib

/-!
Verification of the scribe backend (speech-to-text job engine).

This file gives a shallow embedding of the backend's core components:

* the durable job store (`src/backend/scribe_backend/db/dao.py`, class
  `Database`): jobs, transcript segments and the operations on them;
* the per-job transcription engine
  (`src/backend/scribe_backend/engine/transcription.py`,
  `TranscriptionEngine.run_job` and the `_ModelCache` LRU);
* the model manager's cancellable download
  (`src/backend/scribe_backend/engine/model_manager.py`);
* the thin service layer (`src/backend/scribe_backend/service.py`):
  path validation, `StartTranscription`, `StreamTranscription` replay,
  `CancelJob`, `SaveTranscriptEdits`, `GetTranscript`.

External collaborators (the recognition runtime, the audio probe, the
translation endpoint, the filesystem, the hardware probe) are modelled as
oracle inputs, exactly as the spec treats them.  Machine floats are
modelled as rationals: every arithmetic step the engine performs on them
(division, `min`, comparison with zero) is exact at the inputs considered
here.  Wall-clock timestamps are opaque strings supplied by the caller.
-/

namespace Scribe

/-! ## Data model (schema of `jobs` and `transcript_segments`)

Statuses are the integer codes of `scribe_pb2.JobStatus`:
QUEUED = 1, RUNNING = 2, COMPLETED = 3, FAILED = 4, CANCELED = 5. -/

/-- One row of the `jobs` table.  `audio_duration_seconds` is the cached
audio-probe result (spec section 3). -/
structure JobRow where
  job_id : String
  status : Nat
  audio_path : String
  model : String
  language : String
  translate : Bool
  progress : ℚ
  error : Option String
  created_at : String
  updated_at : String
  audio_duration_seconds : Option ℚ
deriving Repr, DecidableEq

/-- One row of the `transcript_segments` table.  The SQL column `end` is a
Lean keyword and is rendered `end_`. -/
structure SegmentRow where
  job_id : String
  idx : Nat
  start : ℚ
  end_ : ℚ
  text : String
  edited_text : Option String
  created_at : String
deriving Repr, DecidableEq

/-- The persistent state: the two tables (settings are not needed by any
claim).  Row order within a table is insertion order; queries that need an
order sort explicitly, as the SQL does. -/
structure DB where
  jobs : List JobRow
  segments : List SegmentRow
deriving Repr, DecidableEq

/-- A segment as produced by the engine before insertion
(`segment_data` dict in `run_job`). -/
structure SegmentData where
  idx : Nat
  start : ℚ
  end_ : ℚ
  text : String
deriving Repr, DecidableEq

/-- One entry of the `edits` argument of `Database.save_segment_edits`. -/
structure SegmentEdit where
  segment_index : Nat
  edited_text : String
deriving Repr, DecidableEq

namespace Database

/-- `Database.get_job`: `SELECT ... FROM jobs WHERE job_id = ?`, first row.
`job_id` is the primary key, so at most one row matches. -/
def get_job (db : DB) (job_id : String) : Option JobRow :=
  db.jobs.find? (fun j => j.job_id = job_id)

/-- `Database.create_job`: INSERT a QUEUED row with `progress = 0` and both
timestamps equal to `now`; returns `false` (and leaves the table unchanged)
when the insert fails, whose only modelled cause is a primary-key clash on
`job_id`. -/
def create_job (db : DB) (job_id audio_path : String) (model : String)
    (language : String) (translate : Bool) (now : String) : Bool × DB :=
  if db.jobs.any (fun j => j.job_id = job_id) then
    (false, db)
  else
    (true,
     { db with jobs := db.jobs ++
        [{ job_id := job_id, status := 1, audio_path := audio_path,
           model := model, language := language, translate := translate,
           progress := 0, error := none, created_at := now,
           updated_at := now, audio_duration_seconds := none }] })

/-- `Database.update_job_status`: `UPDATE jobs SET status = ?[, error = ?],
updated_at = ? WHERE job_id = ?`.  The `error` column is written only when
the Python argument is truthy (`if error:`), i.e. neither `None` nor `""`. -/
def update_job_status (db : DB) (job_id : String) (status : Nat)
    (error : Option String) (now : String) : DB :=
  { db with jobs := db.jobs.map fun j =>
      if j.job_id = job_id then
        if error.getD "" ≠ "" then
          { j with status := status, error := error, updated_at := now }
        else
          { j with status := status, updated_at := now }
      else j }

/-- `Database.update_job_progress`. -/
def update_job_progress (db : DB) (job_id : String) (progress : ℚ)
    (now : String) : DB :=
  { db with jobs := db.jobs.map fun j =>
      if j.job_id = job_id then
        { j with progress := progress, updated_at := now }
      else j }

/-- Modelled from the spec: `Database.update_job_audio_duration` is called
by `TranscriptionEngine.run_job` and `ScribeService._resolve_job_duration_seconds`
but its definition is not under `src/`; per spec section 3 the job row
caches the probe result in `audio_duration_seconds`, with `updated_at`
refreshed on every mutation. -/
def update_job_audio_duration (db : DB) (job_id : String) (duration : ℚ)
    (now : String) : DB :=
  { db with jobs := db.jobs.map fun j =>
      if j.job_id = job_id then
        { j with audio_duration_seconds := some duration, updated_at := now }
      else j }

/-- `Database.insert_segments_batch`: one INSERT per segment in a single
transaction; `edited_text` is not in the column list, so new rows carry
NULL there.  Callers guarantee `(job_id, idx)` uniqueness. -/
def insert_segments_batch (db : DB) (job_id : String)
    (segments : List SegmentData) (now : String) : DB :=
  { db with segments := db.segments ++ segments.map fun s =>
      { job_id := job_id, idx := s.idx, start := s.start, end_ := s.end_,
        text := s.text, edited_text := none, created_at := now } }

/-- `Database.get_segments`: rows of the job with `idx > after_idx`,
`ORDER BY idx`.  (`after_idx` defaults to `-1` at the Python call sites.) -/
def get_segments (db : DB) (job_id : String) (after_idx : Int) :
    List SegmentRow :=
  (db.segments.filter fun s => s.job_id = job_id ∧ (s.idx : Int) > after_idx
    ).mergeSort (fun a b => a.idx ≤ b.idx)

/-- One UPDATE of `Database.save_segment_edits`: set `edited_text` on the
row(s) of the job with the given `idx`; the bound value is
`edit['edited_text'] or None`, i.e. `""` is stored as NULL. -/
def apply_segment_edit (segs : List SegmentRow) (job_id : String)
    (edit : SegmentEdit) : List SegmentRow :=
  segs.map fun s =>
    if s.job_id = job_id ∧ s.idx = edit.segment_index then
      { s with edited_text :=
          if edit.edited_text = "" then none else some edit.edited_text }
    else s

/-- `Database.save_segment_edits`: `executemany` runs the UPDATEs in list
order inside one transaction. -/
def save_segment_edits (db : DB) (job_id : String)
    (edits : List SegmentEdit) : DB :=
  { db with segments :=
      (edits.foldl (fun segs e => apply_segment_edit segs job_id e)
        db.segments) }

/-- `Database.delete_job`: `DELETE FROM jobs WHERE job_id = ?`, cascading
to the job's segments. -/
def delete_job (db : DB) (job_id : String) : DB :=
  { jobs := db.jobs.filter (fun j => ¬ j.job_id = job_id),
    segments := db.segments.filter (fun s => ¬ s.job_id = job_id) }

/-- `Database.cancel_job`: shortcut for `update_job_status(id, 5)`. -/
def cancel_job (db : DB) (job_id : String) (now : String) : DB :=
  update_job_status db job_id 5 none now

/-- The fixed recovery error string of `Database.fail_stale_jobs`. -/
def staleError : String := "Server restarted while job was in progress"

/-- Whether a row is hit by the `WHERE status IN (1, 2)` clause of
`fail_stale_jobs`. -/
def isStale (j : JobRow) : Bool := j.status = 1 ∨ j.status = 2

/-- `Database.fail_stale_jobs`: one UPDATE setting `status = 4` and the
fixed error on every QUEUED or RUNNING row; returns the cursor's
`rowcount`. -/
def fail_stale_jobs (db : DB) (now : String) : DB × Nat :=
  ({ db with jobs := db.jobs.map fun j =>
      if isStale j then
        { j with status := 4, error := some staleError, updated_at := now }
      else j },
   db.jobs.countP isStale)

end Database

/-! ## `_ModelCache` (transcription.py): LRU model cache with byte budget

The Python class keys an `OrderedDict` by `(model_name, device,
compute_type)`; insertion order is LRU order (front = least recently
used).  We model the ordered dict as a list of entries, front first, and
the loaded `WhisperModel` handle as an opaque type parameter `α`. -/

/-- Cache key `(model_name, device, compute_type)`. -/
abbrev CacheKey := String × String × String

/-- One `OrderedDict` entry: key plus the stored pair
`(model, estimated_bytes)`. -/
structure CacheEntry (α : Type) where
  key : CacheKey
  model : α
  bytes : Nat
deriving Repr

/-- State of `_ModelCache`: budget, entries in LRU order (least recently
used first), and the `_current_bytes` counter.  The counter is an integer
because the Python code maintains it by unchecked additions and
subtractions. -/
structure ModelCache (α : Type) where
  budget : Nat
  entries : List (CacheEntry α)
  current_bytes : Int
deriving Repr

/-- Total estimated bytes of a list of entries. -/
def sumBytes {α : Type} (l : List (CacheEntry α)) : Nat :=
  (l.map (fun e => e.bytes)).sum

namespace ModelCache

/-- `_ModelCache.get`: return the cached model and move the key to
most-recently-used (`OrderedDict.move_to_end`), or `None`. -/
def get {α : Type} (c : ModelCache α) (key : CacheKey) :
    Option α × ModelCache α :=
  match c.entries.find? (fun e => e.key = key) with
  | none => (none, c)
  | some e =>
      (some e.model,
       { c with entries :=
          (c.entries.filter (fun x => ¬ x.key = key)) ++ [e] })

/-- The `while` loop of `_ModelCache.put`: evict least-recently-used
entries while the cache is non-empty and `current + new_bytes > budget`.
Returns the remaining entries, the updated byte counter and the list of
evicted keys, in eviction order. -/
def evictWhile {α : Type} (budget new_bytes : Nat) :
    List (CacheEntry α) → Int → List (CacheEntry α) × Int × List CacheKey
  | [], cur => ([], cur, [])
  | e :: rest, cur =>
      if cur + new_bytes > (budget : Int) then
        let r := evictWhile budget new_bytes rest (cur - e.bytes)
        (r.1, r.2.1, e.key :: r.2.2)
      else (e :: rest, cur, [])

/-- `_ModelCache.put`: pop an existing entry under the same key (adjusting
the byte counter), evict LRU entries until there is room or the cache is
empty, then append the new entry as most-recently-used.  Also returns the
keys evicted by the `while` loop. -/
def put {α : Type} (c : ModelCache α) (key : CacheKey) (model : α)
    (estimated_bytes : Nat) : ModelCache α × List CacheKey :=
  let popped : List (CacheEntry α) × Int :=
    match c.entries.find? (fun e => e.key = key) with
    | some old =>
        (c.entries.filter (fun e => ¬ e.key = key),
         c.current_bytes - old.bytes)
    | none => (c.entries, c.current_bytes)
  let r := evictWhile c.budget estimated_bytes popped.1 popped.2
  ({ c with
      entries := r.1 ++ [⟨key, model, estimated_bytes⟩]
      current_bytes := r.2.1 + estimated_bytes },
   r.2.2)

/-- `_ModelCache.clear`. -/
def clear {α : Type} (c : ModelCache α) : ModelCache α :=
  { c with entries := [], current_bytes := 0 }

end ModelCache

/-- One call against the cache, for reasoning about operation sequences. -/
inductive CacheOp (α : Type) where
  | get (key : CacheKey)
  | put (key : CacheKey) (model : α) (estimated_bytes : Nat)
  | clear

/-- Apply one operation, discarding the returned value. -/
def applyCacheOp {α : Type} (c : ModelCache α) : CacheOp α → ModelCache α
  | .get key => (c.get key).2
  | .put key model bytes => (c.put key model bytes).1
  | .clear => c.clear

/-- The cache as constructed by `_ModelCache.__init__(budget)`. -/
def initCache (α : Type) (budget : Nat) : ModelCache α :=
  { budget := budget, entries := [], current_bytes := 0 }

/-- State after a sequence of operations on a fresh cache. -/
def runCacheOps {α : Type} (budget : Nat) (ops : List (CacheOp α)) :
    ModelCache α :=
  ops.foldl applyCacheOp (initCache α budget)

/-- Joint data invariant of `_ModelCache`: the `_current_bytes` counter
matches the entries, keys are unique (an `OrderedDict` property), and the
byte budget is respected unless a single oversize entry is cached. -/
def CacheInv {α : Type} (c : ModelCache α) : Prop :=
  c.current_bytes = (sumBytes c.entries : Int) ∧
  (c.entries.map (fun e => e.key)).Nodup ∧
  (sumBytes c.entries ≤ c.budget ∨ c.entries.length = 1)

/-! ## `TranscriptionEngine.run_job` (transcription.py)

The engine is modelled as a pure function from an oracle environment
(what the external collaborators would return during this run) and the
starting database to the run's outcome: the returned boolean, the final
database and the list of events passed to the `on_event` callback, in
emission order.  Model loading through `_get_or_load_model` is abstracted
to its success/failure: the loaded handle influences the run only through
the segment stream, which is itself an oracle input.  The recognition
iterator and the translation endpoint are modelled as non-raising (an
exception from either would take the generic `except` path and FAIL the
job; no claim exercises that path mid-loop). -/

/-- One event dict passed to the `on_event` callback by `_emit`:
`{'status': ..., 'progress': ..., 'segment'?: ..., 'error'?: ...,
'final'?: ...}` with `progress` defaulting to `0.0`. -/
structure Event where
  status : Nat
  progress : ℚ
  segment : Option SegmentData
  error : Option String
  final : Bool
deriving Repr, DecidableEq

/-- One segment yielded by the recognition runtime (`faster_whisper`
segment object: `start`, `end`, `text`). -/
structure RawSegment where
  start : ℚ
  end_ : ℚ
  text : String
deriving Repr, DecidableEq

/-- `_SUPPORTED_TRANSLATION_LANGUAGES` from transcription.py. -/
def _SUPPORTED_TRANSLATION_LANGUAGES : List String :=
  ["en", "es", "fr", "de", "it", "pt", "ja", "zh", "ko"]

/-- Python `str.strip()` (strip surrounding whitespace), modelled on the
character list so that it is kernel-computable. -/
def pyStrip (s : String) : String :=
  ⟨((s.data.dropWhile Char.isWhitespace).reverse.dropWhile
      Char.isWhitespace).reverse⟩

/-- Python `str.lower()`. -/
def pyLower (s : String) : String :=
  ⟨s.data.map Char.toLower⟩

/-- Oracle environment of one `run_job` execution: everything the
external collaborators contribute. -/
structure RunEnv where
  /-- `os.path.exists(audio_path)` -/
  fileExists : Bool
  /-- result of `ModelManager.ensure_model` (`None` on failure) -/
  modelPath : Option String
  /-- whether `_get_or_load_model` succeeds (including the CPU retry) -/
  loadOk : Bool
  /-- exception text when `loadOk` is false -/
  loadErr : String
  /-- `_get_audio_duration` result; `0` means unknown -/
  audioDuration : ℚ
  /-- the finite segment stream of `model.transcribe` -/
  segments : List RawSegment
  /-- first loop iteration at which `active_jobs[job_id]` reads false,
  i.e. at which a `cancel_job` is observed; `none` if never cancelled -/
  cancelObservedAt : Option Nat
  /-- `_translate_text` as a function of `(text, target_language)` -/
  translateFn : String → String → String
  /-- timestamp used for this run's writes -/
  now : String

/-- `target_language` as computed at the top of `run_job`:
`(translate_to_language or ("en" if translate else None)) or None`,
lower-cased (empty strings are falsy in Python). -/
def targetLanguage (translate_to_language : Option String)
    (translate : Bool) : Option String :=
  let t : Option String :=
    match translate_to_language with
    | some s => if s = "" then (if translate then some "en" else none)
                else some s
    | none => if translate then some "en" else none
  t.map pyLower

/-- The `if target_language is not None and (target_language not in
_SUPPORTED_TRANSLATION_LANGUAGES)` guard. -/
def unsupportedTarget (target : Option String) : Bool :=
  match target with
  | some t => ¬ (t ∈ _SUPPORTED_TRANSLATION_LANGUAGES)
  | none => false

/-- Whether the cancellation flag reads false at loop iteration `k`
(the flag, once cleared by `cancel_job`, stays cleared). -/
def cancelObserved (env : RunEnv) (k : Nat) : Bool :=
  match env.cancelObservedAt with
  | some c => c ≤ k
  | none => false

/-- Per-segment translation with the in-job `translation_cache`
(`dict` keyed by source text): `if target_language and target_language !=
"en" and segment_data['text']: ...`. -/
def translateSegmentText (env : RunEnv) (target : Option String)
    (cache : List (String × String)) (text : String) :
    String × List (String × String) :=
  match target with
  | some t =>
      if t ≠ "" ∧ t ≠ "en" ∧ text ≠ "" then
        match cache.lookup text with
        | some tr => (tr, cache)
        | none => (env.translateFn text t, (text, env.translateFn text t) :: cache)
      else (text, cache)
  | none => (text, cache)

/-- The `while True` segment loop of `run_job`.  Arguments mirror the
Python locals: remaining iterator output, `segment_count`,
`processed_duration`, `segment_batch`, `translation_cache`, plus the
database and the events emitted so far. -/
def runLoop (env : RunEnv) (job_id : String) (target : Option String) :
    List RawSegment → Nat → ℚ → List SegmentData →
    List (String × String) → DB → List Event → Bool × DB × List Event
  | rest, count, processed, batch, cache, db, evs =>
    if cancelObserved env count then
      -- cancellation branch: set CANCELED and emit the terminal event;
      -- note that `segment_batch` is NOT flushed here
      (false,
       Database.update_job_status db job_id 5 none env.now,
       evs ++ [⟨5, 0, none, none, true⟩])
    else
      match rest with
      | [] =>
          -- iterator exhausted: flush the remainder, then COMPLETED
          let db1 := if batch.isEmpty then db
            else Database.insert_segments_batch db job_id batch env.now
          let db2 := if ¬ batch.isEmpty ∧ env.audioDuration > 0 then
              Database.update_job_progress db1 job_id
                (min (processed / env.audioDuration) 1) env.now
            else db1
          let db3 := Database.update_job_status db2 job_id 3 none env.now
          let db4 := Database.update_job_progress db3 job_id 1 env.now
          (true, db4, evs ++ [⟨3, 1, none, none, true⟩])
      | seg :: rest' =>
          let tc := translateSegmentText env target cache (pyStrip seg.text)
          let sd : SegmentData := ⟨count, seg.start, seg.end_, tc.1⟩
          let batch1 := batch ++ [sd]
          let progress := if env.audioDuration > 0 then
              min (seg.end_ / env.audioDuration) 1 else 0
          let evs1 := evs ++ [⟨2, progress, some sd, none, false⟩]
          if batch1.length ≥ 10 then
            runLoop env job_id target rest' (count + 1) seg.end_ []
              tc.2
              (Database.update_job_progress
                (Database.insert_segments_batch db job_id batch1 env.now)
                job_id progress env.now)
              evs1
          else
            runLoop env job_id target rest' (count + 1) seg.end_ batch1
              tc.2 db evs1

/-- `TranscriptionEngine.run_job`: returns the Python return value, the
final database and the emitted events in order. -/
def run_job (env : RunEnv) (db : DB) (job_id audio_path : String)
    (model_name : String) (language : Option String) (translate : Bool)
    (translate_to_language : Option String) : Bool × DB × List Event :=
  let target := targetLanguage translate_to_language translate
  if unsupportedTarget target then
    -- `raise ValueError(...)`, caught by the generic `except` handler
    let msg := "Transcription failed: Unsupported translation language: "
      ++ target.getD ""
    (false, Database.update_job_status db job_id 4 (some msg) env.now,
     [⟨4, 0, none, some msg, true⟩])
  else if ¬ env.fileExists then
    let msg := "Audio file not found: " ++ audio_path
    (false, Database.update_job_status db job_id 4 (some msg) env.now,
     [⟨4, 0, none, some msg, true⟩])
  else
    let db1 := Database.update_job_status db job_id 2 none env.now
    let evs1 : List Event := [⟨2, 0, none, none, false⟩]
    match env.modelPath with
    | none =>
        let msg := "Failed to load model: " ++ model_name
        (false, Database.update_job_status db1 job_id 4 (some msg) env.now,
         evs1 ++ [⟨4, 0, none, some msg, true⟩])
    | some _ =>
        if ¬ env.loadOk then
          -- model-load exception, caught by the generic handler
          let msg := "Transcription failed: " ++ env.loadErr
          (false, Database.update_job_status db1 job_id 4 (some msg) env.now,
           evs1 ++ [⟨4, 0, none, some msg, true⟩])
        else
          let db2 := if env.audioDuration > 0 then
              Database.update_job_audio_duration db1 job_id
                env.audioDuration env.now
            else db1
          runLoop env job_id target env.segments 0 0 [] [] db2 evs1

/-! ## Service layer (service.py)

The filesystem seen by path validation is an oracle: `resolve` is
`pathlib.Path(...).resolve()` (canonical absolute path, symlinks and `..`
resolved, no trailing separator) and `isFile` is `os.path.isfile`. -/

structure FS where
  resolve : String → String
  isFile : String → Bool

/-- `_ALLOWED_EXTENSIONS` from service.py. -/
def _ALLOWED_EXTENSIONS : List String :=
  [".wav", ".mp3", ".m4a", ".flac", ".ogg", ".mp4", ".webm"]

/-- `_BLOCKED_PREFIXES` from service.py. -/
def _BLOCKED_PREFIXES : List String :=
  ["/etc", "/proc", "/sys", "/dev", "/boot", "/sbin", "/bin", "/lib"]

/-- `os.path.isabs` on POSIX: the path starts with the separator. -/
def pyIsAbs (s : String) : Bool :=
  s.data.head? = some '/'

/-- `pathlib.PurePath.name` of a canonical path: the part after the last
separator. -/
def lastComponent (s : String) : String :=
  ⟨(s.data.reverse.takeWhile (fun c => ¬ c = '/')).reverse⟩

/-- `pathlib.PurePath.suffix`: from the last dot of the final component,
unless that dot is its first or last character (`name.rfind('.')` with the
`0 < i < len(name) - 1` guard). -/
def pySuffix (s : String) : String :=
  let cs := (lastComponent s).data
  let i := cs.length - 1 - cs.reverse.indexOf '.'
  if 0 < i ∧ i < cs.length - 1 then ⟨cs.drop i⟩ else ""

/-- The blocked-prefix test of `_validate_audio_path`:
`resolved == prefix or resolved.startswith(prefix + os.sep)`. -/
def isBlockedPath (resolved : String) : Bool :=
  _BLOCKED_PREFIXES.any (fun p =>
    resolved = p || (p ++ "/").data.isPrefixOf resolved.data)

/-- `_validate_audio_path`: returns `(resolved_path, None)` on success or
`(None, error_message)` on failure, exactly as the Python tuple. -/
def _validate_audio_path (fs : FS) (raw_path : String) :
    Option String × Option String :=
  if raw_path = "" ∨ pyStrip raw_path = "" then
    (none, some "Audio file path is empty")
  else if ¬ pyIsAbs raw_path then
    (none, some "Audio file path must be absolute")
  else
    let resolved := fs.resolve raw_path
    if isBlockedPath resolved then
      (none, some "Access denied: path is inside a system directory")
    else
      let ext := pyLower (pySuffix resolved)
      if ¬ ext ∈ _ALLOWED_EXTENSIONS then
        (none, some ("Unsupported file type \x27" ++ ext ++
          "\x27. Allowed: " ++ String.intercalate ", "
            (_ALLOWED_EXTENSIONS.mergeSort (fun a b => a ≤ b))))
      else if ¬ fs.isFile resolved then
        (none, some ("Audio file not found: " ++ resolved))
      else (some resolved, none)

/-- The `TranscriptionOptions` proto message (proto3 scalar defaults:
empty strings and false booleans). -/
structure TranscriptionOptions where
  model : String
  language : String
  translate_to_english : Bool
  translate_to_language : String
  initial_prompt : String
  enable_gpu : Bool
deriving Repr, DecidableEq

/-- A `StartTranscription` request: an audio source (present iff
`HasField('file_path')`), an optional caller job id (`""` when absent) and
optional options. -/
structure StartRequest where
  hasFilePath : Bool
  file_path : String
  job_id : String
  options : Option TranscriptionOptions
deriving Repr, DecidableEq

/-- Synchronous outcome of `StartTranscription`: an aborted RPC with
INVALID_ARGUMENT or INTERNAL, or the accepted response. -/
inductive StartOutcome where
  | invalidArgument (message : String)
  | internalError (message : String)
  | accepted (job_id : String) (status : Nat)
deriving Repr, DecidableEq

/-- The job id used by `StartTranscription`:
`request.job_id if request.job_id else await self.db.new_job_id()`
(`fresh_id` is the id `new_job_id` would mint). -/
def chosenJobId (req : StartRequest) (fresh_id : String) : String :=
  if ¬ req.job_id = "" then req.job_id else fresh_id

/-- `options.model if options and options.model else "base"`. -/
def chosenModel (req : StartRequest) : String :=
  match req.options with
  | some o => if ¬ o.model = "" then o.model else "base"
  | none => "base"

/-- `options.language if options and options.language else None`. -/
def chosenLanguage (req : StartRequest) : Option String :=
  match req.options with
  | some o => if ¬ o.language = "" then some o.language else none
  | none => none

/-- `options.translate_to_english if options else False`. -/
def chosenTranslate (req : StartRequest) : Bool :=
  match req.options with
  | some o => o.translate_to_english
  | none => false

/-- `options.translate_to_language.lower() if options and
options.translate_to_language else ("en" if translate else None)`. -/
def chosenTTL (req : StartRequest) : Option String :=
  match req.options with
  | some o =>
      if ¬ o.translate_to_language = "" then
        some (pyLower o.translate_to_language)
      else if chosenTranslate req then some "en" else none
  | none => if chosenTranslate req then some "en" else none

/-- `ScribeService.StartTranscription` up to (and including) job
persistence; the asynchronous `run_job` task it spawns is modelled
separately by `run_job`. -/
def StartTranscription (fs : FS) (db : DB) (req : StartRequest)
    (fresh_id : String) (now : String) : StartOutcome × DB :=
  if ¬ req.hasFilePath then
    (.invalidArgument "Only file_path audio source is supported", db)
  else
    let v := _validate_audio_path fs req.file_path
    match v.2 with
    | some err => (.invalidArgument err, db)
    | none =>
      let audio_path := v.1.getD ""
      let r := Database.create_job db (chosenJobId req fresh_id) audio_path
        (chosenModel req) ((chosenLanguage req).getD "auto")
        (chosenTTL req).isSome now
      if r.1 then (.accepted (chosenJobId req fresh_id) 1, r.2)
      else (.internalError "Failed to create job in database", db)

/-- The proto `Segment` message as placed in a `TranscriptionEvent`. -/
structure ProtoSegment where
  index : Nat
  start : ℚ
  end_ : ℚ
  text : String
deriving Repr, DecidableEq

/-- The proto `TranscriptionEvent` message (optional fields are `none`
when unset). -/
structure ProtoEvent where
  job_id : String
  status : Nat
  progress : ℚ
  error : Option String
  segment : Option ProtoSegment
deriving Repr, DecidableEq

/-- `_on_engine_event` in `StartTranscription`: convert an engine event
dict to the proto event published to every subscriber queue (`error` is
copied only when truthy, `segment` when present). -/
def toProtoEvent (job_id : String) (e : Event) : ProtoEvent :=
  { job_id := job_id, status := e.status, progress := e.progress,
    error := if e.error.getD "" ≠ "" then e.error else none,
    segment := e.segment.map (fun s => ⟨s.idx, s.start, s.end_, s.text⟩) }

/-- What a live subscriber whose queue existed before the first event
observes: every published event in publication order (after the event
with `final` set, `_publish_end` enqueues the end-of-stream sentinel). -/
def subscriberView (job_id : String) (events : List Event) :
    List ProtoEvent :=
  events.map (toProtoEvent job_id)

/-- Result of `ScribeService.StreamTranscription`: NOT_FOUND abort,
a replay of persisted state followed by end-of-stream (terminal jobs), or
a live subscription (non-terminal jobs). -/
inductive StreamResult where
  | notFound
  | replay (events : List ProtoEvent)
  | live
deriving Repr, DecidableEq

/-- `ScribeService.StreamTranscription` up to the choice of path; for a
terminal job the yielded catch-up events are computed from the Store
alone (the method returns before ever subscribing, so replay cannot
interleave with live events). -/
def StreamTranscription (db : DB) (job_id : String) : StreamResult :=
  match Database.get_job db job_id with
  | none => .notFound
  | some job =>
      if job.status = 3 ∨ job.status = 4 ∨ job.status = 5 then
        let segments := Database.get_segments db job_id (-1)
        .replay
          ((segments.map (fun seg =>
            { job_id := job_id, status := job.status,
              progress := job.progress, error := none,
              segment := some ⟨seg.idx, seg.start, seg.end_, seg.text⟩ }))
            ++ [{ job_id := job_id, status := job.status,
                  progress := job.progress,
                  error := if job.error.getD "" ≠ "" then job.error
                    else none,
                  segment := none }])
      else .live

/-- The proto `Segment` with `edited_text`, as returned by
`GetTranscript` (`seg.get('edited_text') or ''`). -/
structure TranscriptSegment where
  index : Nat
  start : ℚ
  end_ : ℚ
  text : String
  edited_text : String
deriving Repr, DecidableEq

/-- The `GetTranscriptResponse` proto message. -/
structure GetTranscriptResponse where
  job_id : String
  status : Nat
  segments : List TranscriptSegment
  audio_path : String
  model : String
  language : String
  created_at : String
deriving Repr, DecidableEq

/-- `ScribeService.GetTranscript`; `none` models the NOT_FOUND abort. -/
def GetTranscript (db : DB) (job_id : String) :
    Option GetTranscriptResponse :=
  match Database.get_job db job_id with
  | none => none
  | some job =>
      some { job_id := job.job_id, status := job.status,
             segments := (Database.get_segments db job_id (-1)).map
               (fun seg =>
                 { index := seg.idx, start := seg.start, end_ := seg.end_,
                   text := seg.text,
                   edited_text := seg.edited_text.getD "" }),
             audio_path := job.audio_path, model := job.model,
             language := job.language, created_at := job.created_at }

/-- `ScribeService.SaveTranscriptEdits`; `none` models the NOT_FOUND
abort, otherwise the edits are persisted and `saved=True` is returned
(the `saved=False` branch only covers a raising Store, not modelled). -/
def SaveTranscriptEdits (db : DB) (job_id : String)
    (edits : List SegmentEdit) : Option (Bool × DB) :=
  match Database.get_job db job_id with
  | none => none
  | some _ => some (true, Database.save_segment_edits db job_id edits)

/-- The engine's `active_jobs` map (`job_id -> bool`): presence means the
job's `run_job` task is between its start and its `finally`. -/
structure EngineState where
  active_jobs : List (String × Bool)
deriving Repr, DecidableEq

/-- `TranscriptionEngine.cancel_job`: if the job is active, clear its
flag and write CANCELED to the Store; otherwise do nothing. -/
def engine_cancel_job (es : EngineState) (db : DB) (job_id : String)
    (now : String) : Bool × EngineState × DB :=
  if (es.active_jobs.lookup job_id).isSome then
    (true,
     ⟨es.active_jobs.map (fun p => if p.1 = job_id then (p.1, false) else p)⟩,
     Database.cancel_job db job_id now)
  else (false, es, db)

/-- `ScribeService.CancelJob`: try the engine first; otherwise cancel in
the Store only when the job row exists in QUEUED or RUNNING. -/
def CancelJob (es : EngineState) (db : DB) (job_id : String)
    (now : String) : Bool × EngineState × DB :=
  let r := engine_cancel_job es db job_id now
  if r.1 then r
  else
    match Database.get_job db job_id with
    | some job =>
        if job.status = 1 ∨ job.status = 2 then
          (true, es, Database.cancel_job db job_id now)
        else (false, es, db)
    | none => (false, es, db)

/-! ## `ModelManager` download and cancellation (model_manager.py)

The models directory is an oracle filesystem keyed by model name:
`dirs name = none` when `models_dir/<name>` does not exist, `some files`
when it exists with the given entries.  A download is a sequence of
write steps (one per tqdm progress update / per-file download start),
each preceded by a poll of the per-model cancel event. -/

structure ModelsFS where
  dirs : String → Option (List String)

/-- `ModelManager.is_model_downloaded`: the directory exists and is
non-empty. -/
def is_model_downloaded (fs : ModelsFS) (name : String) : Bool :=
  match fs.dirs name with
  | some files => ¬ files.isEmpty
  | none => false

/-- One write step of a download: append one downloaded piece to the
model's directory (creating it on first write). -/
def writeStep (fs : ModelsFS) (name : String) (tok : String) : ModelsFS :=
  ⟨fun n => if n = name then some ((fs.dirs name).getD [] ++ [tok])
    else fs.dirs n⟩

/-- `shutil.rmtree(model_path)` guarded by `model_path.exists()`. -/
def rmtreeModel (fs : ModelsFS) (name : String) : ModelsFS :=
  ⟨fun n => if n = name then none else fs.dirs n⟩

/-- Outcome of `download_model_with_progress`: normal return, the
`DownloadCanceled` exception, or the unknown-model `ValueError`. -/
inductive DownloadOutcome where
  | completed
  | canceled
  | unknownModel
deriving Repr, DecidableEq

/-- The download loop: before each write step the cancel event is
polled (`cancelAt = some c` means the event reads set from poll `c` on);
on observing it, partial files are removed (`rmtree`) before the
`DownloadCanceled` exception propagates. -/
def downloadGo (name : String) (cancelAt : Option Nat) :
    List String → Nat → ModelsFS → DownloadOutcome × ModelsFS
  | steps, k, fs =>
    if (match cancelAt with | some c => c ≤ k | none => false : Bool) then
      (.canceled, rmtreeModel fs name)
    else match steps with
      | [] => (.completed, fs)
      | tok :: rest => downloadGo name cancelAt rest (k + 1)
          (writeStep fs name tok)

/-- `ModelManager.download_model_with_progress` for a catalog-known
model: fast path when already downloaded, otherwise the polling write
loop.  (`_active_downloads` registration and its `finally` removal are
modelled in `ManagerState`; after the call returns the entry is gone.) -/
def download_model_with_progress (fs : ModelsFS) (name : String)
    (steps : List String) (cancelAt : Option Nat) :
    DownloadOutcome × ModelsFS :=
  if is_model_downloaded fs name then (.completed, fs)
  else downloadGo name cancelAt steps 0 fs

/-- `ModelManager._active_downloads`: name present iff a download for it
is in flight; the boolean is whether its `threading.Event` is set. -/
structure ManagerState where
  active_downloads : List (String × Bool)
deriving Repr, DecidableEq

/-- `ModelManager.cancel_download`: set the event and report `True` iff a
download for the model is in flight. -/
def cancel_download (st : ManagerState) (name : String) :
    Bool × ManagerState :=
  match st.active_downloads.lookup name with
  | some _ =>
      (true,
       ⟨st.active_downloads.map (fun p => if p.1 = name then (p.1, true)
          else p)⟩)
  | none => (false, st)

/-! ## Derived notions used in theorem statements -/

/-- The progress value the loop computes after a segment ending at
`end_`. -/
def progressOf (env : RunEnv) (end_ : ℚ) : ℚ :=
  if env.audioDuration > 0 then min (end_ / env.audioDuration) 1 else 0

/-- The RUNNING event emitted for one processed segment. -/
def segmentEventOf (env : RunEnv) (sd : SegmentData) : Event :=
  ⟨2, progressOf env sd.end_, some sd, none, false⟩

/-- The segment dicts the loop builds from a stretch of runtime output,
starting at index `count` with translation cache `cache` (pure replay of
the loop's per-segment processing). -/
def processSegs (env : RunEnv) (target : Option String) :
    List RawSegment → Nat → List (String × String) → List SegmentData
  | [], _, _ => []
  | seg :: rest, count, cache =>
      let tc := translateSegmentText env target cache (pyStrip seg.text)
      ⟨count, seg.start, seg.end_, tc.1⟩ ::
        processSegs env target rest (count + 1) tc.2

/-- The table rows `insert_segments_batch` writes for a batch. -/
def rowsOf (job_id now : String) (l : List SegmentData) : List SegmentRow :=
  l.map (fun s =>
    { job_id := job_id, idx := s.idx, start := s.start, end_ := s.end_,
      text := s.text, edited_text := none, created_at := now })

/-- The segments of a job as stored, in table order. -/
def jobSegs (db : DB) (job_id : String) : List SegmentRow :=
  db.segments.filter (fun s => s.job_id = job_id)

/-- The effect of one UPDATE of `save_segment_edits` on one row. -/
def rowStep (job_id : String) (s : SegmentRow) (e : SegmentEdit) :
    SegmentRow :=
  if s.job_id = job_id ∧ s.idx = e.segment_index then
    { s with edited_text :=
        if e.edited_text = "" then none else some e.edited_text }
  else s

/-- The most recent edit for a given index in an edit list, if any
(`executemany` applies edits in order, so the last one wins). -/
def lastEditFor (edits : List SegmentEdit) (i : Nat) : Option String :=
  ((edits.filter (fun e => e.segment_index = i)).map
    (fun e => e.edited_text)).getLast?

/-- The `edited_text` that `GetTranscript` reports for segment index `i`
of a job (`none` when the job or the segment does not exist). -/
def reportedEdit (db : DB) (job_id : String) (i : Nat) : Option String :=
  match GetTranscript db job_id with
  | none => none
  | some resp =>
      (resp.segments.find? (fun s => s.index = i)).map
        (fun s => s.edited_text)

/-- Strict-or-equal index order on segment rows, used to identify sorted
row lists uniquely. -/
def idxLE (a b : SegmentRow) : Prop := a.idx < b.idx ∨ a = b

instance : IsAntisymm SegmentRow idxLE where
  antisymm a b hab hba := by
    rcases hab with h1 | h1
    · rcases hba with h2 | h2
      · omega
      · exact h2.symm
    · exact h1

/-! ## Concrete fixtures for witnesses and counterexamples -/

/-- End-to-end scenario 1 of the spec: 10-second file, recognition
stubbed to two segments, translation off, no cancellation. -/
def c1Env : RunEnv :=
  { fileExists := true
    modelPath := some "/models/base"
    loadOk := true
    loadErr := ""
    audioDuration := 10
    segments := [⟨0, 5, "hello"⟩, ⟨5, 10, "world"⟩]
    cancelObservedAt := none
    translateFn := fun s _ => s
    now := "t1" }

/-- A run that produces one segment and then observes cancellation at the
next segment boundary (iteration 1), leaving the one-element batch
unflushed. -/
def c2Env : RunEnv :=
  { fileExists := true
    modelPath := some "/models/base"
    loadOk := true
    loadErr := ""
    audioDuration := 10
    segments := [⟨0, 5, "hello"⟩]
    cancelObservedAt := some 1
    translateFn := fun s _ => s
    now := "t2" }

/-- A QUEUED job row for the cancellation scenario. -/
def c2Job : JobRow :=
  { job_id := "j2", status := 1, audio_path := "/audio/a.wav",
    model := "base", language := "auto", translate := false,
    progress := 0, error := none, created_at := "t0", updated_at := "t0",
    audio_duration_seconds := none }

/-- A filesystem on which paths resolve to themselves and every path is a
regular file. -/
def fsId : FS :=
  { resolve := fun s => s, isFile := fun _ => true }

/-- A valid submission except that the requested translation target
language `xx` is not in the supported set. -/
def c3Req : StartRequest :=
  { hasFilePath := true
    file_path := "/audio/a.wav"
    job_id := ""
    options := some
      { model := "", language := "", translate_to_english := false,
        translate_to_language := "xx", initial_prompt := "",
        enable_gpu := true } }

/-- A COMPLETED job row used by replay and transcript witnesses. -/
def c4Job : JobRow :=
  { job_id := "j4", status := 3, audio_path := "/audio/b.wav",
    model := "base", language := "auto", translate := false,
    progress := 1, error := none, created_at := "t0", updated_at := "t3",
    audio_duration_seconds := some 10 }

/-- Two persisted segments of `c4Job`, stored out of `idx` order. -/
def c4DB : DB :=
  { jobs := [c4Job]
    segments :=
      [{ job_id := "j4", idx := 1, start := 5, end_ := 10, text := "world",
         edited_text := none, created_at := "t1" },
       { job_id := "j4", idx := 0, start := 0, end_ := 5, text := "hello",
         edited_text := some "HELLO", created_at := "t1" }] }

/-- A models directory with no model downloaded. -/
def emptyModelsFS : ModelsFS := ⟨fun _ => none⟩

/-! # Theorems -/

/-! ## C5: crash recovery -/

/-- C5: For every persisted database state, `fail_stale_jobs` updates
exactly the jobs whose status is QUEUED or RUNNING to FAILED with error
string "Server restarted while job was in progress", returns the number of
rows affected, and leaves every other job row and every segment row
unchanged. -/
theorem c5_fail_stale_jobs (db : DB) (now : String) :
    let r := Database.fail_stale_jobs db now
    -- segment rows are untouched
    r.1.segments = db.segments ∧
    -- no job row appears or disappears
    r.1.jobs.length = db.jobs.length ∧
    -- row-by-row: stale rows become FAILED with the fixed error, all
    -- other rows are returned unchanged
    (∀ i : Fin db.jobs.length,
      r.1.jobs[i.1]? =
        some (if db.jobs[i].status = 1 ∨ db.jobs[i].status = 2 then
          { db.jobs[i] with
            status := 4
            error := some "Server restarted while job was in progress"
            updated_at := now }
        else db.jobs[i])) ∧
    -- the returned count is the number of affected rows
    r.2 = (db.jobs.filter (fun j => j.status = 1 ∨ j.status = 2)).length := by
  refine ⟨rfl, by simp [Database.fail_stale_jobs], ?_, ?_⟩
  · intro i
    simp only [Database.fail_stale_jobs, List.getElem?_map,
      List.getElem?_eq_getElem i.2, Option.map_some']
    by_cases h : db.jobs[i].status = 1 ∨ db.jobs[i].status = 2
    · simp [Database.isStale, Database.staleError, h]
    · simp [Database.isStale, Database.staleError, h]
  · have h : Database.isStale = fun j =>
        decide (j.status = 1) || decide (j.status = 2) := by
      funext j
      simp [Database.isStale]
    simp [Database.fail_stale_jobs, List.countP_eq_length_filter, h]

/-! ### Cache invariant lemmas -/

theorem sumBytes_perm {α : Type} {l l' : List (CacheEntry α)}
    (h : l.Perm l') : sumBytes l = sumBytes l' := by
  simp only [sumBytes]
  exact (h.map (fun e => e.bytes)).sum_eq

/-- Locating an entry by key in a key-unique entry list splits the list,
up to permutation, into that entry and the entries with other keys. -/
theorem find?_key_perm {α : Type} :
    ∀ (l : List (CacheEntry α)) (k : CacheKey) (e : CacheEntry α),
    (l.map (fun x => x.key)).Nodup →
    l.find? (fun x => x.key = k) = some e →
    l.Perm (e :: l.filter (fun x => ¬ x.key = k))
  | [], _, _, _, hfind => by simp at hfind
  | a :: t, k, e, hnd, hfind => by
    rw [List.map_cons, List.nodup_cons] at hnd
    by_cases hak : a.key = k
    · rw [List.find?_cons_of_pos _ (by simpa using hak)] at hfind
      have hae : a = e := by simpa using hfind
      subst hae
      have ht : t.filter (fun x => ¬ x.key = k) = t := by
        apply List.filter_eq_self.2
        intro x hx
        have hne : x.key ≠ a.key := by
          intro hxk
          exact hnd.1
            (by simpa [hxk.symm] using List.mem_map_of_mem (fun y => y.key) hx)
        simpa [hak] using hne
      have hfa : (a :: t).filter (fun x => ¬ x.key = k) = t := by
        rw [List.filter_cons_of_neg (by simpa using hak), ht]
      rw [hfa]
    · rw [List.find?_cons_of_neg _ (by simpa using hak)] at hfind
      have ih := find?_key_perm t k e hnd.2 hfind
      have hfa : (a :: t).filter (fun x => ¬ x.key = k) =
          a :: t.filter (fun x => ¬ x.key = k) :=
        List.filter_cons_of_pos (by simpa using hak)
      rw [hfa]
      exact (ih.cons a).trans
        (List.Perm.swap e a (t.filter (fun x => ¬ x.key = k)))

/-- Every key evicted by the `while` loop of `put` is the key of one of
the entries the loop started from. -/
theorem evictWhile_evicted_mem {α : Type} (budget b : Nat) :
    ∀ (l : List (CacheEntry α)) (cur : Int) (k : CacheKey),
    k ∈ (ModelCache.evictWhile budget b l cur).2.2 →
    k ∈ l.map (fun e => e.key)
  | [], cur, k => by simp [ModelCache.evictWhile]
  | e :: rest, cur, k => by
    simp only [ModelCache.evictWhile]
    by_cases h : cur + b > (budget : Int)
    · simp only [if_pos h, List.mem_cons]
      rintro (rfl | hk)
      · exact List.mem_map.2 ⟨e, List.mem_cons_self e rest, rfl⟩
      · have hmem := evictWhile_evicted_mem budget b rest (cur - e.bytes) k hk
        rw [List.map_cons]
        exact List.mem_cons_of_mem _ hmem
    · simp [if_neg h]

/-- The eviction loop keeps the byte counter in sync, only drops entries,
and stops either on an empty cache or with room for the new entry. -/
theorem evictWhile_spec {α : Type} (budget b : Nat) :
    ∀ (l : List (CacheEntry α)) (cur : Int), cur = (sumBytes l : Int) →
    (ModelCache.evictWhile budget b l cur).2.1 =
      (sumBytes (ModelCache.evictWhile budget b l cur).1 : Int) ∧
    (ModelCache.evictWhile budget b l cur).1.Sublist l ∧
    ((ModelCache.evictWhile budget b l cur).1 = [] ∨
      (ModelCache.evictWhile budget b l cur).2.1 + b ≤ (budget : Int))
  | [], cur, hcur => by
    simp [ModelCache.evictWhile, hcur, sumBytes]
  | e :: rest, cur, hcur => by
    simp only [ModelCache.evictWhile]
    by_cases h : cur + b > (budget : Int)
    · simp only [if_pos h]
      have hrest : cur - e.bytes = (sumBytes rest : Int) := by
        rw [hcur]
        simp only [sumBytes, List.map_cons, List.sum_cons]
        push_cast
        ring
      obtain ⟨h1, h2, h3⟩ := evictWhile_spec budget b rest (cur - e.bytes) hrest
      exact ⟨h1, h2.cons e, h3⟩
    · simp only [if_neg h]
      refine ⟨hcur, List.Sublist.refl _, Or.inr ?_⟩
      omega

/-- `put` never evicts the entry being inserted: the entry under the
inserted key is popped before the eviction loop runs, so the loop never
sees that key. -/
theorem put_not_self_evict {α : Type} (c : ModelCache α) (k : CacheKey)
    (v : α) (b : Nat) : k ∉ (c.put k v b).2 := by
  intro hmem
  rcases hfind : c.entries.find? (fun e => e.key = k) with _ | old
  · simp only [ModelCache.put, hfind] at hmem
    have hk := evictWhile_evicted_mem c.budget b c.entries c.current_bytes
      k hmem
    obtain ⟨x, hx, hxk⟩ := List.mem_map.1 hk
    have := List.find?_eq_none.1 hfind x hx
    simp [hxk] at this
  · simp only [ModelCache.put, hfind] at hmem
    have hk := evictWhile_evicted_mem c.budget b
      (c.entries.filter (fun e => ¬ e.key = k))
      (c.current_bytes - old.bytes) k hmem
    obtain ⟨x, hx, hxk⟩ := List.mem_map.1 hk
    have := (List.mem_filter.1 hx).2
    simp [hxk] at this

/-- `get` preserves the cache invariant. -/
theorem cacheInv_get {α : Type} (c : ModelCache α) (k : CacheKey)
    (h : CacheInv c) : CacheInv (c.get k).2 ∧ (c.get k).2.budget = c.budget := by
  obtain ⟨hbytes, hnd, hbudget⟩ := h
  rcases hfind : c.entries.find? (fun e => e.key = k) with _ | e
  · simp only [ModelCache.get, hfind]
    exact ⟨⟨hbytes, hnd, hbudget⟩, trivial⟩
  · simp only [ModelCache.get, hfind]
    have hperm : c.entries.Perm
        (e :: c.entries.filter (fun x => ¬ x.key = k)) :=
      find?_key_perm c.entries k e hnd hfind
    have hperm' : (c.entries.filter (fun x => ¬ x.key = k) ++ [e]).Perm
        c.entries := (List.perm_append_singleton e _).trans hperm.symm
    refine ⟨⟨?_, ?_, ?_⟩, trivial⟩
    · rw [hbytes, sumBytes_perm hperm']
    · exact ((hperm'.map (fun x => x.key)).nodup_iff).2 hnd
    · rcases hbudget with h1 | h1
      · exact Or.inl (by rw [sumBytes_perm hperm']; exact h1)
      · exact Or.inr (by rw [hperm'.length_eq]; exact h1)

/-- `put` preserves the cache invariant. -/
theorem cacheInv_put {α : Type} (c : ModelCache α) (k : CacheKey) (v : α)
    (b : Nat) (h : CacheInv c) :
    CacheInv (c.put k v b).1 ∧ (c.put k v b).1.budget = c.budget := by
  obtain ⟨hbytes, hnd, _⟩ := h
  -- the state after popping an existing entry under the inserted key:
  -- entries without that key, counter adjusted
  have hstep : ∀ (l0 : List (CacheEntry α)) (cur0 : Int),
      cur0 = (sumBytes l0 : Int) →
      (l0.map (fun e => e.key)).Nodup →
      (∀ x ∈ l0, ¬ x.key = k) →
      CacheInv
        { budget := c.budget
          entries := (ModelCache.evictWhile c.budget b l0 cur0).1 ++ [⟨k, v, b⟩]
          current_bytes := (ModelCache.evictWhile c.budget b l0 cur0).2.1 + b } := by
    intro l0 cur0 hcur hnd0 hnok
    obtain ⟨h1, h2, h3⟩ := evictWhile_spec c.budget b l0 cur0 hcur
    refine ⟨?_, ?_, ?_⟩
    · show (ModelCache.evictWhile c.budget b l0 cur0).2.1 + (b : Int) = _
      rw [h1]
      simp only [sumBytes, List.map_append, List.sum_append]
      push_cast
      simp
    · show ((((ModelCache.evictWhile c.budget b l0 cur0).1 ++
        [(⟨k, v, b⟩ : CacheEntry α)]).map (fun e => e.key))).Nodup
      have hnd1 : ((ModelCache.evictWhile c.budget b l0 cur0).1.map
          (fun e => e.key)).Nodup :=
        (h2.map (fun e => e.key)).nodup hnd0
      rw [List.map_append]
      refine List.Nodup.append hnd1 (by simp) ?_
      intro x hx hx'
      obtain ⟨y, hy, hyk⟩ := List.mem_map.1 hx
      have hxk : x = k := by simpa using hx'
      exact hnok y (h2.mem hy) (by rw [hyk, hxk])
    · rcases h3 with h3 | h3
      · right
        simp [h3]
      · left
        have hc1 : (sumBytes (ModelCache.evictWhile c.budget b l0 cur0).1 : Int)
            + b ≤ (c.budget : Int) := by rw [← h1]; exact h3
        have hc2 : sumBytes (ModelCache.evictWhile c.budget b l0 cur0).1 + b ≤
            c.budget := by exact_mod_cast hc1
        show sumBytes ((ModelCache.evictWhile c.budget b l0 cur0).1 ++
          [(⟨k, v, b⟩ : CacheEntry α)]) ≤ c.budget
        simpa [sumBytes, List.map_append, List.sum_append] using hc2
  rcases hfind : c.entries.find? (fun e => e.key = k) with _ | old
  · simp only [ModelCache.put, hfind]
    refine ⟨?_, trivial⟩
    refine hstep c.entries c.current_bytes hbytes hnd ?_
    intro x hx
    simpa using List.find?_eq_none.1 hfind x hx
  · simp only [ModelCache.put, hfind]
    refine ⟨?_, trivial⟩
    have hperm : c.entries.Perm
        (old :: c.entries.filter (fun x => ¬ x.key = k)) :=
      find?_key_perm c.entries k old hnd hfind
    have hsum : sumBytes c.entries =
        old.bytes + sumBytes (c.entries.filter (fun x => ¬ x.key = k)) := by
      simpa [sumBytes] using sumBytes_perm hperm
    have hsubf : (c.entries.filter (fun x => ¬ x.key = k)).Sublist
        c.entries := List.filter_sublist c.entries
    have hndf : ((c.entries.filter (fun x => ¬ x.key = k)).map
        (fun e => e.key)).Nodup :=
      (hsubf.map (fun e => e.key)).nodup hnd
    refine hstep _ (c.current_bytes - old.bytes) ?_ hndf ?_
    · rw [hbytes, hsum]
      push_cast
      ring
    · intro x hx
      simpa using (List.mem_filter.1 hx).2

/-- `clear` preserves the cache invariant. -/
theorem cacheInv_clear {α : Type} (c : ModelCache α) :
    CacheInv c.clear ∧ c.clear.budget = c.budget := by
  refine ⟨⟨by simp [ModelCache.clear, sumBytes], by simp [ModelCache.clear],
    Or.inl (by simp [ModelCache.clear, sumBytes])⟩, rfl⟩

/-- The invariant holds after any operation sequence on a fresh cache. -/
theorem cacheInv_runCacheOps {α : Type} (budget : Nat)
    (ops : List (CacheOp α)) : CacheInv (runCacheOps budget ops) := by
  suffices h : ∀ (ops : List (CacheOp α)) (c : ModelCache α),
      CacheInv c → CacheInv (ops.foldl applyCacheOp c) by
    refine h ops _ ?_
    exact ⟨by simp [initCache, sumBytes], by simp [initCache],
      Or.inl (by simp [initCache, sumBytes])⟩
  intro ops
  induction ops with
  | nil => intro c hc; exact hc
  | cons op rest ih =>
    intro c hc
    refine ih _ ?_
    cases op with
    | get k => exact (cacheInv_get c k hc).1
    | put k v b => exact (cacheInv_put c k v b hc).1
    | clear => exact (cacheInv_clear c).1

/-! ### C6 and C9 -/

/-- C6: For every sequence of get, put, and clear operations on the model
cache, after each operation either the sum of the estimated byte sizes of
the cached entries is at most the budget, or the cache contains exactly
one entry; and a put never evicts the entry currently being inserted. -/
theorem c6_cache_budget_invariant {α : Type} (budget : Nat)
    (ops : List (CacheOp α)) :
    (sumBytes (runCacheOps budget ops).entries ≤
        (runCacheOps budget ops).budget ∨
      (runCacheOps budget ops).entries.length = 1) ∧
    (∀ (c : ModelCache α) (k : CacheKey) (v : α) (b : Nat),
      ((c.put k v b).2).count k = 0) := by
  refine ⟨(cacheInv_runCacheOps budget ops).2.2, ?_⟩
  intro c k v b
  exact List.count_eq_zero.2 (put_not_self_evict c k v b)

/-- C9: Between any two `_ModelCache` operations, the cache's
`_current_bytes` counter equals the sum of the estimated byte sizes of the
entries currently held. -/
theorem c9_current_bytes_sync {α : Type} (budget : Nat)
    (ops : List (CacheOp α)) :
    (runCacheOps budget ops).current_bytes =
      (sumBytes (runCacheOps budget ops).entries : Int) :=
  (cacheInv_runCacheOps budget ops).1

/-! ### C1: the straight-line two-segment scenario -/

/-- C1: For every accepted job over a 10-second audio file whose
recognition runtime yields exactly the two segments
(start=0, end=5, text="hello") and (start=5, end=10, text="world"), with
model base, language auto, and translation off, a subscriber joining
immediately observes exactly the event sequence RUNNING(progress=0),
RUNNING(progress=0.5, segment 0), RUNNING(progress=1.0, segment 1),
COMPLETED(progress=1.0). -/
theorem c1_two_segment_event_sequence (db : DB)
    (job_id audio_path : String) :
    subscriberView job_id
      (run_job c1Env db job_id audio_path "base" none false none).2.2 =
      [⟨job_id, 2, 0, none, none⟩,
       ⟨job_id, 2, 1/2, none, some ⟨0, 0, 5, "hello"⟩⟩,
       ⟨job_id, 2, 1, none, some ⟨1, 5, 10, "world"⟩⟩,
       ⟨job_id, 3, 1, none, none⟩] := by
  norm_num [subscriberView, toProtoEvent, run_job, runLoop, c1Env,
    targetLanguage, unsupportedTarget, cancelObserved,
    translateSegmentText, _SUPPORTED_TRANSLATION_LANGUAGES]
  exact ⟨rfl, rfl⟩

/-! ### C10: CancelJob on inactive / terminal jobs -/

/-- C10: For every job_id that is not an active Engine job and is either
absent from the Store or already in a terminal status (COMPLETED, FAILED,
CANCELED), CancelJob returns canceled=false and leaves the Store
unchanged; only jobs found in QUEUED or RUNNING status, or active in the
Engine, are marked CANCELED. -/
theorem c10_cancel_only_active_or_pending :
    (∀ (es : EngineState) (db : DB) (jid now : String),
      (CancelJob es db jid now).1 = true ↔
        ((es.active_jobs.lookup jid).isSome ∨
          ∃ j, Database.get_job db jid = some j ∧
            (j.status = 1 ∨ j.status = 2))) ∧
    (∀ (es : EngineState) (db : DB) (jid now : String),
      es.active_jobs.lookup jid = none →
      (∀ j, Database.get_job db jid = some j →
        j.status = 3 ∨ j.status = 4 ∨ j.status = 5) →
      CancelJob es db jid now = (false, es, db)) := by
  constructor
  · intro es db jid now
    by_cases ha : (es.active_jobs.lookup jid).isSome
    · simp [CancelJob, engine_cancel_job, ha]
    · rcases hj : Database.get_job db jid with _ | j
      · simp [CancelJob, engine_cancel_job, ha, hj]
      · by_cases hs : j.status = 1 ∨ j.status = 2
        · simp only [CancelJob, engine_cancel_job, ha]
          simp [hj, hs]
        · simp only [CancelJob, engine_cancel_job, ha]
          simp [hj, hs, ha]
  · intro es db jid now ha hterm
    rcases hj : Database.get_job db jid with _ | j
    · simp [CancelJob, engine_cancel_job, ha, hj]
    · have hs := hterm j hj
      have hs' : ¬ (j.status = 1 ∨ j.status = 2) := by omega
      simp [CancelJob, engine_cancel_job, ha, hj, hs']

/-- Witness for C10 at a concrete input: an empty engine map and a
COMPLETED job. -/
theorem c10_witness :
    CancelJob ⟨[]⟩ c4DB "j4" "t" = (false, ⟨[]⟩, c4DB) := by
  refine c10_cancel_only_active_or_pending.2 ⟨[]⟩ c4DB "j4" "t" rfl ?_
  intro j hj
  have h : Database.get_job c4DB "j4" = some c4Job := rfl
  rw [h] at hj
  rw [← Option.some.inj hj]
  exact Or.inl rfl

/-! ### C8: download cancellation -/

/-- If the cancel event reads set at or before the last poll, the
download loop raises `DownloadCanceled` and the model directory is gone
when it returns. -/
theorem downloadGo_cancel (name : String) (c : Nat) :
    ∀ (steps : List String) (k : Nat) (fs : ModelsFS),
    c ≤ k + steps.length →
    (downloadGo name (some c) steps k fs).1 = .canceled ∧
    (downloadGo name (some c) steps k fs).2.dirs name = none
  | [], k, fs, h => by
      have hk : c ≤ k := by simpa using h
      simp [downloadGo, hk, rmtreeModel]
  | tok :: rest, k, fs, h => by
      by_cases hk : c ≤ k
      · simp [downloadGo, hk, rmtreeModel]
      · have h' : c ≤ (k + 1) + rest.length := by
          simp only [List.length_cons] at h
          omega
        have ih := downloadGo_cancel name c rest (k + 1)
          (writeStep fs name tok) h'
        simp only [downloadGo]
        rw [if_neg (by simpa using hk)]
        exact ih

/-- Setting the flag of one key in an association list changes only that
key's value. -/
theorem lookup_map_setflag (l : List (String × Bool)) (n : String)
    (v : Bool) :
    (l.map (fun p => if p.1 = n then (p.1, v) else p)).lookup n =
      (l.lookup n).map (fun _ => v) := by
  induction l with
  | nil => simp
  | cons a t ih =>
    obtain ⟨k, b⟩ := a
    by_cases h : k = n
    · subst h
      rw [List.map_cons]
      simp [List.lookup_cons_self]
    · have hbeq : (n == k) = false := by simpa using Ne.symm h
      rw [List.map_cons]
      simp [h, List.lookup_cons, hbeq, ih]

/-- Setting the same flag twice is the same as setting it once. -/
theorem map_setflag_idem (l : List (String × Bool)) (n : String)
    (v : Bool) :
    ((l.map (fun p => if p.1 = n then (p.1, v) else p)).map
      (fun p => if p.1 = n then (p.1, v) else p)) =
      l.map (fun p => if p.1 = n then (p.1, v) else p) := by
  rw [List.map_map]
  apply List.map_congr_left
  intro p _
  by_cases h : p.1 = n
  · simp [Function.comp, h]
  · simp [Function.comp, h]

/-- C8: For every in-flight model download that is canceled, all
partially downloaded files under that model's directory are removed
before the download call returns (it raises DownloadCanceled), so no
directory satisfying the non-empty "downloaded" predicate remains for
that model; cancel_download is idempotent and returns true if and only if
a download for that model was in flight. -/
theorem c8_cancel_removes_partial (fs : ModelsFS) (name : String)
    (steps : List String) (c : Nat)
    (hnd : is_model_downloaded fs name = false)
    (hc : c ≤ steps.length) :
    ((download_model_with_progress fs name steps (some c)).1 = .canceled ∧
     (download_model_with_progress fs name steps (some c)).2.dirs name
       = none ∧
     is_model_downloaded
       (download_model_with_progress fs name steps (some c)).2 name
       = false) ∧
    (∀ (st : ManagerState) (n : String),
      ((cancel_download st n).1 = true ↔
        (st.active_downloads.lookup n).isSome) ∧
      cancel_download (cancel_download st n).2 n = cancel_download st n) := by
  constructor
  · have hdl := downloadGo_cancel name c steps 0 fs (by simpa using hc)
    have hrun : download_model_with_progress fs name steps (some c) =
        downloadGo name (some c) steps 0 fs := by
      simp [download_model_with_progress, hnd]
    refine ⟨by rw [hrun]; exact hdl.1, by rw [hrun]; exact hdl.2, ?_⟩
    rw [hrun]
    simp [is_model_downloaded, hdl.2]
  · intro st n
    rcases h : st.active_downloads.lookup n with _ | b
    · simp [cancel_download, h]
    · constructor
      · simp [cancel_download, h]
      · simp only [cancel_download, h]
        rw [lookup_map_setflag]
        simp only [h, Option.map_some']
        rw [map_setflag_idem]

/-- Witness for C8: an empty models directory, a two-step download
canceled at the second poll. -/
theorem c8_witness :
    (download_model_with_progress emptyModelsFS "base" ["f1", "f2"]
      (some 1)).1 = .canceled ∧
    (download_model_with_progress emptyModelsFS "base" ["f1", "f2"]
      (some 1)).2.dirs "base" = none := by
  have h := c8_cancel_removes_partial emptyModelsFS "base" ["f1", "f2"] 1
    rfl (by norm_num)
  exact ⟨h.1.1, h.1.2.1⟩

/-! ### C3: StartTranscription validation -/

/-- A path that starts with the separator is neither empty nor
whitespace-only. -/
theorem not_blank_of_isAbs (s : String) (h : pyIsAbs s = true) :
    ¬ (s = "" ∨ pyStrip s = "") := by
  have hdata : ∃ rest, s.data = '/' :: rest := by
    rcases hd : s.data with _ | ⟨c, rest⟩
    · simp [pyIsAbs, hd] at h
    · have hc : c = '/' := by
        simpa [pyIsAbs, hd] using h
      exact ⟨rest, by simp [hd, hc]⟩
  obtain ⟨rest, hd⟩ := hdata
  rintro (h1 | h1)
  · rw [h1] at hd
    simp at hd
  · have hdrop : s.data.dropWhile Char.isWhitespace = '/' :: rest := by
      rw [hd]
      rw [List.dropWhile_cons_of_neg (by decide)]
    have : pyStrip s ≠ "" := by
      simp only [pyStrip, hdrop]
      intro hcon
      have hnil : (('/' :: rest).reverse.dropWhile
          Char.isWhitespace).reverse = [] := by
        simpa [String.ext_iff] using hcon
      have hnil2 : ('/' :: rest).reverse.dropWhile Char.isWhitespace
          = [] := by simpa using hnil
      have hall := List.dropWhile_eq_nil_iff.1 hnil2
      have hmem : '/' ∈ ('/' :: rest).reverse := by simp
      have := hall '/' hmem
      simp at this
    exact this h1

/-- `find?` skips a prefix with no matches. -/
theorem find?_append_of_none {α : Type} (p : α → Bool) :
    ∀ (l1 l2 : List α), (∀ x ∈ l1, ¬ p x = true) →
    (l1 ++ l2).find? p = l2.find? p
  | [], l2, _ => by simp
  | a :: t, l2, h => by
    rw [List.cons_append, List.find?_cons_of_neg _ (h a (by simp))]
    exact find?_append_of_none p t l2 (fun x hx => h x (by simp [hx]))

/-- C3 as stated is false on the code: an unsupported translation target
language does not make `StartTranscription` reject synchronously; the
submission below has a valid path but target language `xx`, yet it is
accepted and persisted as QUEUED (the language error would only fail the
job asynchronously inside `run_job`). -/
theorem c3_counterexample :
    _SUPPORTED_TRANSLATION_LANGUAGES.contains "xx" = false ∧
    (StartTranscription fsId ⟨[], []⟩ c3Req "J" "t").1 =
      .accepted "J" 1 ∧
    Database.get_job (StartTranscription fsId ⟨[], []⟩ c3Req "J" "t").2 "J"
      = some { job_id := "J", status := 1, audio_path := "/audio/a.wav",
               model := "base", language := "auto", translate := true,
               progress := 0, error := none, created_at := "t",
               updated_at := "t", audio_duration_seconds := none } :=
  ⟨rfl, rfl, rfl⟩

/-- With no primary-key clash, `create_job` persists exactly one new
QUEUED row with progress 0, and `get_job` finds it. -/
theorem create_job_ok (db : DB) (jid path model lang : String) (tr : Bool)
    (now : String)
    (h : db.jobs.any (fun j => j.job_id = jid) = false) :
    ∃ row : JobRow,
      Database.create_job db jid path model lang tr now =
        (true, { db with jobs := db.jobs ++ [row] }) ∧
      Database.get_job { db with jobs := db.jobs ++ [row] } jid =
        some row ∧
      row.job_id = jid ∧ row.status = 1 ∧ row.progress = 0 ∧
      row.audio_path = path := by
  refine ⟨⟨jid, 1, path, model, lang, tr, 0, none, now, now, none⟩,
    ?_, ?_, rfl, rfl, rfl, rfl⟩
  · simp [Database.create_job, h]
  · simp only [Database.get_job]
    rw [find?_append_of_none _ db.jobs _ (fun x hx => by
      simpa using (List.any_eq_false.1 h) x hx)]
    rw [List.find?_cons_of_pos _ (by simp)]

/-- C3 amended: dropping the translation-language clause.
StartTranscription (on a request carrying a file path, with a job id not
already taken) rejects synchronously with INVALID_ARGUMENT, creating no
job, if and only if the audio path is not absolute, or resolves inside a
blocked system prefix, or its extension is not allowed, or it is not a
regular file after resolution; otherwise the job is persisted as QUEUED
with progress 0.  (An unsupported translation target language does not
reject synchronously; it fails the job asynchronously.) -/
theorem c3_reject_iff_bad_path (fs : FS) (db : DB) (req : StartRequest)
    (fresh_id now : String)
    (hfp : req.hasFilePath = true)
    (hfresh : db.jobs.any (fun j => j.job_id =
      chosenJobId req fresh_id) = false) :
    ((∃ msg, (StartTranscription fs db req fresh_id now).1 =
        .invalidArgument msg) ↔
      (pyIsAbs req.file_path = false ∨
        isBlockedPath (fs.resolve req.file_path) = true ∨
        ¬ pyLower (pySuffix (fs.resolve req.file_path))
            ∈ _ALLOWED_EXTENSIONS ∨
        fs.isFile (fs.resolve req.file_path) = false)) ∧
    (¬ (pyIsAbs req.file_path = false ∨
        isBlockedPath (fs.resolve req.file_path) = true ∨
        ¬ pyLower (pySuffix (fs.resolve req.file_path))
            ∈ _ALLOWED_EXTENSIONS ∨
        fs.isFile (fs.resolve req.file_path) = false) →
      ∃ row : JobRow,
        (StartTranscription fs db req fresh_id now).1 =
          .accepted row.job_id 1 ∧
        Database.get_job (StartTranscription fs db req fresh_id now).2
          row.job_id = some row ∧
        row.status = 1 ∧ row.progress = 0 ∧
        row.audio_path = fs.resolve req.file_path) := by
  by_cases hempty : (req.file_path = "" ∨ pyStrip req.file_path = "")
  · have hv : _validate_audio_path fs req.file_path =
        (none, some "Audio file path is empty") := by
      simp only [_validate_audio_path, if_pos hempty]
    have habs : pyIsAbs req.file_path = false := by
      by_contra hcon
      exact not_blank_of_isAbs req.file_path
        (by simpa using hcon) hempty
    constructor
    · simp [StartTranscription, hfp, hv, habs]
    · intro hcon
      exact absurd (Or.inl habs) hcon
  · by_cases habs : pyIsAbs req.file_path = true
    · by_cases hblock : isBlockedPath (fs.resolve req.file_path) = true
      · have hv : _validate_audio_path fs req.file_path =
            (none,
             some "Access denied: path is inside a system directory") := by
          simp only [_validate_audio_path, if_neg hempty, habs]
          simp [hblock]
        constructor
        · simp [StartTranscription, hfp, hv, hblock]
        · intro hcon
          exact absurd (Or.inr (Or.inl hblock)) hcon
      · by_cases hext : pyLower (pySuffix (fs.resolve req.file_path))
            ∈ _ALLOWED_EXTENSIONS
        · by_cases hfile : fs.isFile (fs.resolve req.file_path) = true
          · -- all checks pass: accepted and persisted QUEUED
            have hv : _validate_audio_path fs req.file_path =
                (some (fs.resolve req.file_path), none) := by
              simp only [_validate_audio_path, if_neg hempty, habs]
              simp [hblock, hext, hfile]
            obtain ⟨row, hcj, hget, hjid, hstat, hprog, hpath⟩ :=
              create_job_ok db (chosenJobId req fresh_id)
                (fs.resolve req.file_path) (chosenModel req)
                ((chosenLanguage req).getD "auto") (chosenTTL req).isSome
                now hfresh
            have hst : StartTranscription fs db req fresh_id now =
                (.accepted (chosenJobId req fresh_id) 1,
                 { db with jobs := db.jobs ++ [row] }) := by
              simp only [StartTranscription, hfp, hv, Option.getD_some]
              rw [hcj]
              simp
            constructor
            · rw [hst]
              constructor
              · rintro ⟨msg, hmsg⟩
                simp at hmsg
              · rintro (h | h | h | h)
                · rw [habs] at h
                  simp at h
                · exact absurd h hblock
                · exact absurd hext h
                · rw [hfile] at h
                  simp at h
            · intro _
              refine ⟨row, ?_, ?_, hstat, hprog, hpath⟩
              · rw [hst, hjid]
              · rw [hst, hjid]
                exact hget
          · have hfile' : fs.isFile (fs.resolve req.file_path)
                = false := by simpa using hfile
            have hv : _validate_audio_path fs req.file_path =
                (none, some ("Audio file not found: " ++
                  fs.resolve req.file_path)) := by
              simp only [_validate_audio_path, if_neg hempty, habs]
              simp [hblock, hext, hfile]
            constructor
            · simp [StartTranscription, hfp, hv, hfile']
            · intro hcon
              exact absurd (Or.inr (Or.inr (Or.inr hfile'))) hcon
        · have hv : _validate_audio_path fs req.file_path =
              (none, some ("Unsupported file type \x27" ++
                pyLower (pySuffix (fs.resolve req.file_path)) ++
                "\x27. Allowed: " ++ String.intercalate ", "
                  (_ALLOWED_EXTENSIONS.mergeSort
                    (fun a b => a ≤ b)))) := by
            simp only [_validate_audio_path, if_neg hempty, habs]
            simp [hblock, hext]
          constructor
          · simp [StartTranscription, hfp, hv, hext]
          · intro hcon
            exact absurd (Or.inr (Or.inr (Or.inl hext))) hcon
    · have habs' : pyIsAbs req.file_path = false := by simpa using habs
      have hv : _validate_audio_path fs req.file_path =
          (none, some "Audio file path must be absolute") := by
        simp only [_validate_audio_path, if_neg hempty]
        rw [if_pos habs]
      constructor
      · simp [StartTranscription, hfp, hv, habs']
      · intro hcon
        exact absurd (Or.inl habs') hcon

/-- Witness for the amended C3: the valid-path, unsupported-language
request is accepted and persisted as QUEUED. -/
theorem c3_witness :
    ∃ row : JobRow,
      (StartTranscription fsId ⟨[], []⟩ c3Req "J" "t").1 =
        .accepted row.job_id 1 ∧
      Database.get_job (StartTranscription fsId ⟨[], []⟩ c3Req "J" "t").2
        row.job_id = some row ∧
      row.status = 1 ∧ row.progress = 0 ∧
      row.audio_path = fsId.resolve c3Req.file_path := by
  refine (c3_reject_iff_bad_path fsId ⟨[], []⟩ c3Req "J" "t" rfl rfl).2 ?_
  decide

/-! ### C4: replay for terminal jobs -/

/-- `get_segments` (with the default `after_idx = -1`) is a permutation
of the job's stored segment rows: the `idx > -1` clause never filters a
row out. -/
theorem get_segments_perm (db : DB) (job_id : String) :
    (Database.get_segments db job_id (-1)).Perm (jobSegs db job_id) := by
  have h1 : (db.segments.filter
      (fun s => s.job_id = job_id ∧ (s.idx : Int) > (-1 : Int))) =
      jobSegs db job_id := by
    apply List.filter_congr
    intro s _
    rw [decide_eq_decide]
    constructor
    · exact fun h => h.1
    · exact fun h => ⟨h, by omega⟩
  have h2 : (db.segments.filter
      (fun s => s.job_id = job_id ∧ (s.idx : Int) > (-1 : Int))).Perm
      (jobSegs db job_id) := by
    rw [h1]
  exact (List.mergeSort_perm _ _).trans h2

/-- `get_segments` output is sorted by `idx` (the `ORDER BY idx`). -/
theorem get_segments_sorted (db : DB) (job_id : String) (after_idx : Int) :
    (Database.get_segments db job_id after_idx).Pairwise
      (fun a b => a.idx ≤ b.idx) := by
  unfold Database.get_segments
  refine List.Pairwise.imp ?_ (List.sorted_mergeSort ?_ ?_ _)
  · intro a b hab
    simpa using hab
  · intro a b c hab hbc
    have h1 : a.idx ≤ b.idx := by simpa using hab
    have h2 : b.idx ≤ c.idx := by simpa using hbc
    simpa using h1.trans h2
  · intro a b
    by_cases h : a.idx ≤ b.idx
    · simp [h]
    · simp [le_of_not_le h]

/-- A `≤`-sorted segment list with distinct indices is strictly
ascending. -/
theorem pairwise_lt_of_sorted_nodup (l : List SegmentRow)
    (hs : l.Pairwise (fun a b => a.idx ≤ b.idx))
    (hnd : (l.map (fun s => s.idx)).Nodup) :
    l.Pairwise (fun a b => a.idx < b.idx) := by
  have hne : l.Pairwise (fun a b => a.idx ≠ b.idx) :=
    List.pairwise_map.1 hnd
  exact (hs.and hne).imp (fun h => lt_of_le_of_ne h.1 h.2)

/-- C4: For every job already in a terminal status (COMPLETED, FAILED, or
CANCELED), a StreamTranscription subscriber joining after the terminal
event receives exactly the persisted segments of that job in ascending
idx order, one event per segment, followed by a single final event
carrying the terminal status (and the error when present), then
end-of-stream; this replay is computed from the Store and returned before
any subscription, so it never interleaves with live events. -/
theorem c4_terminal_replay (db : DB) (job_id : String) (job : JobRow)
    (hjob : Database.get_job db job_id = some job)
    (hterm : job.status = 3 ∨ job.status = 4 ∨ job.status = 5)
    (hnd : ((jobSegs db job_id).map (fun s => s.idx)).Nodup) :
    ∃ segs : List SegmentRow,
      StreamTranscription db job_id = .replay
        ((segs.map (fun seg => (⟨job_id, job.status, job.progress, none,
           some ⟨seg.idx, seg.start, seg.end_, seg.text⟩⟩ : ProtoEvent)))
         ++ [⟨job_id, job.status, job.progress,
              (if job.error.getD "" ≠ "" then job.error else none),
              none⟩]) ∧
      segs.Perm (jobSegs db job_id) ∧
      segs.Pairwise (fun a b => a.idx < b.idx) := by
  refine ⟨Database.get_segments db job_id (-1), ?_, get_segments_perm db
    job_id, ?_⟩
  · simp only [StreamTranscription, hjob]
    rw [if_pos hterm]
  · refine pairwise_lt_of_sorted_nodup _ (get_segments_sorted db job_id
      (-1)) ?_
    exact ((get_segments_perm db job_id).map (fun s => s.idx)).nodup_iff.2
      hnd

/-- Witness for C4 on a concrete store whose two persisted segments are
stored out of order. -/
theorem c4_witness :
    ∃ segs : List SegmentRow,
      StreamTranscription c4DB "j4" = .replay
        ((segs.map (fun seg => (⟨"j4", c4Job.status, c4Job.progress, none,
           some ⟨seg.idx, seg.start, seg.end_, seg.text⟩⟩ : ProtoEvent)))
         ++ [⟨"j4", c4Job.status, c4Job.progress,
              (if c4Job.error.getD "" ≠ "" then c4Job.error else none),
              none⟩]) ∧
      segs.Perm (jobSegs c4DB "j4") ∧
      segs.Pairwise (fun a b => a.idx < b.idx) := by
  refine c4_terminal_replay c4DB "j4" c4Job rfl (Or.inl rfl) ?_
  decide

/-! ### C7: transcript edits round-trip -/

theorem apply_segment_edit_eq_map (segs : List SegmentRow) (jid : String)
    (e : SegmentEdit) :
    Database.apply_segment_edit segs jid e =
      segs.map (fun s => rowStep jid s e) := rfl

/-- A transaction of UPDATEs acts row-by-row. -/
theorem foldl_apply_eq_map (jid : String) :
    ∀ (edits : List SegmentEdit) (segs : List SegmentRow),
    edits.foldl (fun l e => Database.apply_segment_edit l jid e) segs =
      segs.map (fun s => edits.foldl (rowStep jid) s)
  | [], segs => by simp
  | e :: rest, segs => by
    rw [List.foldl_cons, apply_segment_edit_eq_map,
      foldl_apply_eq_map jid rest, List.map_map]
    rfl

/-- The UPDATEs only touch `edited_text`. -/
theorem foldl_rowStep_fields (jid : String) :
    ∀ (edits : List SegmentEdit) (s : SegmentRow),
    (edits.foldl (rowStep jid) s).job_id = s.job_id ∧
    (edits.foldl (rowStep jid) s).idx = s.idx
  | [], s => ⟨rfl, rfl⟩
  | e :: rest, s => by
    rw [List.foldl_cons]
    have ih := foldl_rowStep_fields jid rest (rowStep jid s e)
    have hstep : (rowStep jid s e).job_id = s.job_id ∧
        (rowStep jid s e).idx = s.idx := by
      unfold rowStep
      by_cases h : s.job_id = jid ∧ s.idx = e.segment_index
      · simp [h]
      · simp [h]
    exact ⟨ih.1.trans hstep.1, ih.2.trans hstep.2⟩

/-- Sequential UPDATEs on one row of the job: the last edit for its index
wins; an empty-string edit clears to NULL. -/
theorem foldl_rowStep_eq (jid : String) (s : SegmentRow)
    (hs : s.job_id = jid) (edits : List SegmentEdit) :
    edits.foldl (rowStep jid) s =
      (match lastEditFor edits s.idx with
       | none => s
       | some t => { s with edited_text :=
           if t = "" then none else some t }) := by
  induction edits using List.reverseRecOn with
  | nil => simp [lastEditFor]
  | append_singleton l e ih =>
    rw [List.foldl_append, ih]
    by_cases he : e.segment_index = s.idx
    · have hlast : lastEditFor (l ++ [e]) s.idx = some e.edited_text := by
        unfold lastEditFor
        rw [List.filter_append, List.map_append]
        have hf : List.filter (fun x => x.segment_index = s.idx) [e]
            = [e] := by simp [he]
        rw [hf, List.map_cons, List.map_nil, List.getLast?_concat]
      rw [hlast]
      rcases hl : lastEditFor l s.idx with _ | t
      · simp only [hl]
        simp [rowStep, hs, he.symm]
      · simp only [hl]
        simp [rowStep, hs, he.symm]
    · have hlast : lastEditFor (l ++ [e]) s.idx = lastEditFor l s.idx := by
        unfold lastEditFor
        rw [List.filter_append, List.map_append]
        have hf : List.filter (fun x => x.segment_index = s.idx) [e]
            = [] := by simp [he]
        rw [hf, List.map_nil, List.append_nil]
      rw [hlast]
      rcases hl : lastEditFor l s.idx with _ | t
      · simp only [hl, List.foldl_cons, List.foldl_nil]
        unfold rowStep
        rw [if_neg (fun hcon => he hcon.2.symm)]
      · simp only [hl, List.foldl_cons, List.foldl_nil]
        unfold rowStep
        rw [if_neg (fun hcon => he hcon.2.symm)]

/-- With unique indices per job, at most one row matches a given index. -/
theorem length_filter_idx_le_one (i : Nat) :
    ∀ (l : List SegmentRow), (l.map (fun s => s.idx)).Nodup →
    (l.filter (fun s => s.idx = i)).length ≤ 1
  | [], _ => by simp
  | a :: t, hnd => by
    rw [List.map_cons, List.nodup_cons] at hnd
    by_cases h : a.idx = i
    · rw [List.filter_cons_of_pos (by simpa using h)]
      have ht : t.filter (fun s => s.idx = i) = [] := by
        rw [List.filter_eq_nil_iff]
        intro x hx hcon
        apply hnd.1
        have hxi : x.idx = i := by simpa using hcon
        rw [h, ← hxi]
        exact List.mem_map_of_mem (fun s => s.idx) hx
      simp [ht]
    · rw [List.filter_cons_of_neg (by simpa using h)]
      exact length_filter_idx_le_one i t hnd.2

theorem find?_eq_head?_filter {α : Type} (p : α → Bool) :
    ∀ l : List α, l.find? p = (l.filter p).head?
  | [] => rfl
  | a :: t => by
    by_cases h : p a = true
    · rw [List.find?_cons_of_pos _ h, List.filter_cons_of_pos h,
        List.head?_cons]
    · rw [List.find?_cons_of_neg _ (by simpa using h),
        List.filter_cons_of_neg (by simpa using h)]
      exact find?_eq_head?_filter p t

theorem eq_of_perm_of_short {α : Type} :
    ∀ {l l' : List α}, l.Perm l' → l.length ≤ 1 → l = l'
  | [], _, h, _ => (h.symm.eq_nil).symm
  | [_], _, h, _ => (List.perm_singleton.1 h.symm).symm
  | _ :: _ :: _, _, _, hlen => absurd hlen (by simp)

/-- `find?` is permutation-invariant when at most one element matches. -/
theorem find?_eq_of_perm_of_unique {α : Type} (p : α → Bool)
    {l l' : List α} (h : l.Perm l') (hu : (l.filter p).length ≤ 1) :
    l.find? p = l'.find? p := by
  rw [find?_eq_head?_filter, find?_eq_head?_filter,
    eq_of_perm_of_short (h.filter p) hu]

/-- C7: For every job with persisted segments and every list of edits,
SaveTranscriptEdits followed by GetTranscript reflects the latest
edited_text for each edited idx; an empty-string edited_text is stored as
NULL (clearing any previous edit), and GetTranscript reports a cleared or
absent edit as an empty edited_text. -/
theorem c7_edits_roundtrip (db : DB) (jid : String)
    (edits : List SegmentEdit) (i : Nat)
    (hjob : (Database.get_job db jid).isSome = true)
    (hnd : ((jobSegs db jid).map (fun s => s.idx)).Nodup) :
    ∃ db', SaveTranscriptEdits db jid edits = some (true, db') ∧
      reportedEdit db' jid i =
        (reportedEdit db jid i).map (fun old =>
          match lastEditFor edits i with
          | some t => t
          | none => old) := by
  obtain ⟨job, hj⟩ := Option.isSome_iff_exists.1 hjob
  refine ⟨Database.save_segment_edits db jid edits, by simp
    [SaveTranscriptEdits, hj], ?_⟩
  have hsegs : (Database.save_segment_edits db jid edits).segments =
      db.segments.map (fun s => edits.foldl (rowStep jid) s) := by
    simp only [Database.save_segment_edits]
    exact foldl_apply_eq_map jid edits db.segments
  have hj' : Database.get_job (Database.save_segment_edits db jid edits)
      jid = some job := hj
  -- both reported values in terms of `find?` over the sorted rows
  have hrep : ∀ (d : DB), Database.get_job d jid = some job →
      reportedEdit d jid i = ((Database.get_segments d jid (-1)).find?
        (fun s => s.idx = i)).map (fun r => r.edited_text.getD "") := by
    intro d hd
    simp only [reportedEdit, GetTranscript, hd]
    rw [List.find?_map, Option.map_map]
    rfl
  rw [hrep _ hj', hrep _ hj]
  -- move from the sorted views to the raw filtered rows
  have hu : ((jobSegs db jid).filter
      (fun s => s.idx = i)).length ≤ 1 :=
    length_filter_idx_le_one i _ hnd
  have hmapseg : jobSegs (Database.save_segment_edits db jid edits) jid =
      (jobSegs db jid).map (fun s => edits.foldl (rowStep jid) s) := by
    unfold jobSegs
    rw [hsegs, List.filter_map]
    congr 1
    apply List.filter_congr
    intro s _
    simp [Function.comp, (foldl_rowStep_fields jid edits s).1]
  have hufd : ((Database.get_segments db jid (-1)).filter
      (fun s => s.idx = i)).length ≤ 1 := by
    rw [((get_segments_perm db jid).filter _).length_eq]
    exact hu
  have hpred : ((fun s : SegmentRow => (s.idx = i : Bool)) ∘
      (fun s => edits.foldl (rowStep jid) s)) =
      (fun s : SegmentRow => (s.idx = i : Bool)) := by
    funext s
    simp [Function.comp, (foldl_rowStep_fields jid edits s).2]
  have hufd' : ((Database.get_segments
      (Database.save_segment_edits db jid edits) jid (-1)).filter
      (fun s => s.idx = i)).length ≤ 1 := by
    rw [((get_segments_perm _ jid).filter _).length_eq]
    rw [hmapseg, List.filter_map, hpred, List.length_map]
    exact hu
  rw [find?_eq_of_perm_of_unique _ (get_segments_perm _ jid) hufd',
    find?_eq_of_perm_of_unique _ (get_segments_perm db jid) hufd]
  rw [hmapseg, List.find?_map, hpred]
  -- case on whether the job has a row with index `i`
  rcases hf : (jobSegs db jid).find? (fun s => s.idx = i) with _ | r
  · rw [hf]
    rfl
  · rw [hf]
    have hrj : r.job_id = jid := by
      have hmem := List.mem_of_find?_eq_some hf
      unfold jobSegs at hmem
      simpa using (List.mem_filter.1 hmem).2
    have hri : r.idx = i := by simpa using List.find?_some hf
    simp only [Option.map_some', Function.comp]
    rw [foldl_rowStep_eq jid r hrj edits, hri]
    rcases hl : lastEditFor edits i with _ | t
    · simp
    · by_cases ht : t = "" <;> simp [ht]

/-- Witness for C7 on the concrete store: clear the edit at index 0 and
edit index 1 twice (the later edit wins). -/
theorem c7_witness :
    ∃ db', SaveTranscriptEdits c4DB "j4"
        [⟨0, ""⟩, ⟨1, "WORLD"⟩, ⟨1, "WORLD2"⟩] = some (true, db') ∧
      reportedEdit db' "j4" 1 =
        (reportedEdit c4DB "j4" 1).map (fun old =>
          match lastEditFor [⟨0, ""⟩, ⟨1, "WORLD"⟩, ⟨1, "WORLD2"⟩] 1 with
          | some t => t
          | none => old) :=
  c7_edits_roundtrip c4DB "j4" _ 1 rfl (by decide)

/-! ### C2: cancellation at a segment boundary -/

/-- `get_job` through a row-wise jobs transformation that preserves
`job_id`. -/
theorem get_job_map (db : DB) (jid : String) (f : JobRow → JobRow)
    (hf : ∀ j, (f j).job_id = j.job_id) :
    Database.get_job { db with jobs := db.jobs.map f } jid =
      (Database.get_job db jid).map f := by
  simp only [Database.get_job, List.find?_map]
  have hp : ((fun j : JobRow => (j.job_id = jid : Bool)) ∘ f) =
      (fun j : JobRow => (j.job_id = jid : Bool)) := by
    funext j
    simp [Function.comp, hf j]
  rw [hp]

/-- Inserting segments does not touch job rows. -/
theorem get_job_insert_segments (db : DB) (jid2 : String)
    (batch : List SegmentData) (now jid : String) :
    Database.get_job (Database.insert_segments_batch db jid2 batch now)
      jid = Database.get_job db jid := rfl

/-- A progress update preserves each job's status (and presence). -/
theorem status_view_update_progress (db : DB) (jid2 : String) (p : ℚ)
    (now jid : String) :
    (Database.get_job (Database.update_job_progress db jid2 p now)
      jid).map (fun j => j.status) =
    (Database.get_job db jid).map (fun j => j.status) := by
  have hf : ∀ j : JobRow, ((fun j : JobRow => if j.job_id = jid2 then
      { j with progress := p, updated_at := now } else j) j).job_id =
      j.job_id := by
    intro j
    by_cases h : j.job_id = jid2 <;> simp [h]
  rw [show Database.update_job_progress db jid2 p now =
      { db with jobs := db.jobs.map (fun j => if j.job_id = jid2 then
        { j with progress := p, updated_at := now } else j) } from rfl,
    get_job_map db jid _ hf]
  cases hj : Database.get_job db jid with
  | none => rfl
  | some j => by_cases h : j.job_id = jid2 <;> simp [h]

/-- A cached-duration update preserves each job's status (and
presence). -/
theorem status_view_update_audio_duration (db : DB) (jid2 : String)
    (d : ℚ) (now jid : String) :
    (Database.get_job
      (Database.update_job_audio_duration db jid2 d now) jid).map
        (fun j => j.status) =
    (Database.get_job db jid).map (fun j => j.status) := by
  have hf : ∀ j : JobRow, ((fun j : JobRow => if j.job_id = jid2 then
      { j with audio_duration_seconds := some d, updated_at := now }
      else j) j).job_id = j.job_id := by
    intro j
    by_cases h : j.job_id = jid2 <;> simp [h]
  rw [show Database.update_job_audio_duration db jid2 d now =
      { db with jobs := db.jobs.map (fun j => if j.job_id = jid2 then
        { j with audio_duration_seconds := some d, updated_at := now }
        else j) } from rfl,
    get_job_map db jid _ hf]
  cases hj : Database.get_job db jid with
  | none => rfl
  | some j => by_cases h : j.job_id = jid2 <;> simp [h]

/-- A status update preserves each job's status view up to the new
status. -/
theorem status_view_update_status (db : DB) (jid : String) (st : Nat)
    (err : Option String) (now : String) :
    (Database.get_job (Database.update_job_status db jid st err now)
      jid).map (fun j => j.status) =
    (Database.get_job db jid).map (fun _ => st) := by
  have hf : ∀ j : JobRow, ((fun j : JobRow => if j.job_id = jid then
      (if err.getD "" ≠ "" then { j with status := st, error := err, updated_at := now }
       else { j with status := st, updated_at := now })
      else j) j).job_id = j.job_id := by
    intro j
    by_cases h : j.job_id = jid
    · by_cases he : err.getD "" ≠ "" <;> simp [h, he]
    · simp [h]
  rw [show Database.update_job_status db jid st err now =
      { db with jobs := db.jobs.map (fun j => if j.job_id = jid then
        (if err.getD "" ≠ "" then { j with status := st, error := err, updated_at := now }
         else { j with status := st, updated_at := now })
        else j) } from rfl,
    get_job_map db jid _ hf]
  cases hj : Database.get_job db jid with
  | none => rfl
  | some j =>
    have hjid : j.job_id = jid := by simpa using List.find?_some hj
    by_cases he : err.getD "" ≠ "" <;> simp [hjid, he]

/-- A status update does not touch segment rows. -/
theorem segments_update_status (db : DB) (jid : String) (st : Nat)
    (err : Option String) (now : String) :
    (Database.update_job_status db jid st err now).segments =
      db.segments := rfl

/-- The indices produced by the segment loop are consecutive from the
starting count. -/
theorem processSegs_idx (env : RunEnv) (target : Option String) :
    ∀ (l : List RawSegment) (k : Nat) (cache : List (String × String)),
    (processSegs env target l k cache).map (fun s => s.idx) =
      List.range' k l.length
  | [], _, _ => rfl
  | seg :: rest, k, cache => by
    simp only [processSegs, List.map_cons, List.length_cons,
      List.range'_succ]
    rw [processSegs_idx env target rest (k + 1) _]

/-- The loop produces one segment dict per consumed runtime segment. -/
theorem processSegs_length (env : RunEnv) (target : Option String)
    (l : List RawSegment) (k : Nat) (cache : List (String × String)) :
    (processSegs env target l k cache).length = l.length := by
  have h := congrArg List.length (processSegs_idx env target l k cache)
  simpa using h

/-- `get_job` presence is unaffected by a progress update. -/
theorem const_view_update_progress (db : DB) (jid2 : String) (p : ℚ)
    (now jid : String) (c : Nat) :
    (Database.get_job (Database.update_job_progress db jid2 p now)
      jid).map (fun _ : JobRow => c) =
    (Database.get_job db jid).map (fun _ => c) := by
  have hf : ∀ j : JobRow, ((fun j : JobRow => if j.job_id = jid2 then
      { j with progress := p, updated_at := now } else j) j).job_id =
      j.job_id := by
    intro j
    by_cases h : j.job_id = jid2 <;> simp [h]
  rw [show Database.update_job_progress db jid2 p now =
      { db with jobs := db.jobs.map (fun j => if j.job_id = jid2 then
        { j with progress := p, updated_at := now } else j) } from rfl,
    get_job_map db jid _ hf]
  cases Database.get_job db jid <;> rfl

/-- When the cancel flag reads false at the top of an iteration, the loop
terminates at once: CANCELED status, terminal event, and the in-memory
batch is dropped. -/
theorem runLoop_at_cancel (env : RunEnv) (jid : String)
    (target : Option String) (rest : List RawSegment) (count : Nat)
    (processed : ℚ) (batch : List SegmentData)
    (cache : List (String × String)) (db : DB) (evs : List Event)
    (hcanc : cancelObserved env count = true) :
    runLoop env jid target rest count processed batch cache db evs =
      (false, Database.update_job_status db jid 5 none env.now,
       evs ++ [⟨5, 0, none, none, true⟩]) := by
  rw [runLoop.eq_def]
  dsimp only
  rw [if_pos hcanc]

/-- The segment loop under a pending cancellation observed at poll `c`:
the loop consumes exactly the first `c - count` remaining segments, emits
one RUNNING event for each, flushes only the full batches of ten, then
marks the job CANCELED and emits the terminal event — the sub-ten
in-memory remainder is not persisted. -/
theorem runLoop_cancel_spec (env : RunEnv) (jid : String)
    (target : Option String) (c : Nat)
    (hc : env.cancelObservedAt = some c) :
    ∀ (rest : List RawSegment) (count : Nat) (processed : ℚ)
      (batch : List SegmentData) (cache : List (String × String))
      (db : DB) (evs : List Event),
    count ≤ c → c ≤ count + rest.length → batch.length < 10 →
    (runLoop env jid target rest count processed batch cache db evs).1
        = false ∧
    (runLoop env jid target rest count processed batch cache db
        evs).2.2
      = evs ++ (processSegs env target (rest.take (c - count)) count
          cache).map (segmentEventOf env) ++ [⟨5, 0, none, none, true⟩] ∧
    (runLoop env jid target rest count processed batch cache db
        evs).2.1.segments
      = db.segments ++ rowsOf jid env.now ((batch ++ processSegs env
          target (rest.take (c - count)) count cache).take
          ((batch.length + (c - count)) -
            (batch.length + (c - count)) % 10)) ∧
    ((Database.get_job (runLoop env jid target rest count processed
        batch cache db evs).2.1 jid).map (fun j => j.status)
      = (Database.get_job db jid).map (fun _ => 5)) := by
  intro rest
  induction rest with
  | nil =>
    intro count processed batch cache db evs h1 h2 h3
    have hcc : c = count := by
      simp only [List.length_nil] at h2
      omega
    have hcanc : cancelObserved env count = true := by
      simp only [cancelObserved, hc]
      simp [hcc]
    rw [runLoop_at_cancel env jid target _ count processed batch cache
      db evs hcanc]
    have hzero : c - count = 0 := by omega
    have hmod : batch.length % 10 = batch.length := Nat.mod_eq_of_lt h3
    refine ⟨rfl, ?_, ?_, ?_⟩
    · simp [hzero, processSegs]
    · simp [hzero, processSegs, hmod, rowsOf, segments_update_status]
    · exact status_view_update_status db jid 5 none env.now
  | cons seg rest' ih =>
    intro count processed batch cache db evs h1 h2 h3
    by_cases hcc : c = count
    · have hcanc : cancelObserved env count = true := by
        simp only [cancelObserved, hc]
        simp [hcc]
      rw [runLoop_at_cancel env jid target _ count processed batch cache
        db evs hcanc]
      have hzero : c - count = 0 := by omega
      have hmod : batch.length % 10 = batch.length := Nat.mod_eq_of_lt h3
      refine ⟨rfl, ?_, ?_, ?_⟩
      · simp [hzero, processSegs]
      · simp [hzero, processSegs, hmod, rowsOf, segments_update_status]
      · exact status_view_update_status db jid 5 none env.now
    · have hlt : count < c := by omega
      have hcanc : cancelObserved env count = false := by
        simp only [cancelObserved, hc]
        simp
        omega
      rw [runLoop.eq_def]
      dsimp only
      rw [if_neg (by simp [hcanc])]
      have htake : (seg :: rest').take (c - count) =
          seg :: rest'.take (c - count - 1) := by
        conv_lhs => rw [show c - count = (c - count - 1) + 1 from by omega]
        rw [List.take_succ_cons]
      have hdatas : processSegs env target
          ((seg :: rest').take (c - count)) count cache =
          ⟨count, seg.start, seg.end_,
            (translateSegmentText env target cache
              (pyStrip seg.text)).1⟩ ::
          processSegs env target (rest'.take (c - count - 1)) (count + 1)
            (translateSegmentText env target cache (pyStrip seg.text)).2
          := by
        rw [htake]
        rfl
      have hlen' : (rest'.take (c - count - 1)).length = c - count - 1 := by
        simp only [List.length_cons] at h2
        simp [List.length_take]
        omega
      by_cases hflush : (batch ++ [(⟨count, seg.start, seg.end_,
          (translateSegmentText env target cache
            (pyStrip seg.text)).1⟩ : SegmentData)]).length ≥ 10
      · -- a flush happens on this iteration: the batch had 9 entries
        rw [if_pos hflush]
        have hb9 : batch.length = 9 := by
          simp only [List.length_append, List.length_cons,
            List.length_nil] at hflush
          omega
        obtain ⟨ih1, ih2, ih3, ih4⟩ := ih (count + 1) seg.end_ []
          (translateSegmentText env target cache (pyStrip seg.text)).2
          (Database.update_job_progress
            (Database.insert_segments_batch db jid
              (batch ++ [⟨count, seg.start, seg.end_,
                (translateSegmentText env target cache
                  (pyStrip seg.text)).1⟩]) env.now)
            jid (if env.audioDuration > 0 then
              min (seg.end_ / env.audioDuration) 1 else 0) env.now)
          (evs ++ [⟨2, (if env.audioDuration > 0 then
            min (seg.end_ / env.audioDuration) 1 else 0),
            some ⟨count, seg.start, seg.end_,
              (translateSegmentText env target cache
                (pyStrip seg.text)).1⟩, none, false⟩])
          (by omega) (by simp only [List.length_cons] at h2 ⊢; omega)
          (by simp)
        refine ⟨ih1, ?_, ?_, ?_⟩
        · rw [ih2, hdatas]
          simp only [segmentEventOf, progressOf, List.map_cons,
            List.append_assoc, List.cons_append, List.nil_append]
          rfl
        · rw [ih3, hdatas]
          have hseg2 : (Database.update_job_progress
              (Database.insert_segments_batch db jid
                (batch ++ [⟨count, seg.start, seg.end_,
                  (translateSegmentText env target cache
                    (pyStrip seg.text)).1⟩]) env.now)
              jid (if env.audioDuration > 0 then
                min (seg.end_ / env.audioDuration) 1 else 0)
              env.now).segments =
              db.segments ++ rowsOf jid env.now
                (batch ++ [⟨count, seg.start, seg.end_,
                  (translateSegmentText env target cache
                    (pyStrip seg.text)).1⟩]) := rfl
          rw [hseg2]
          rw [List.append_assoc]
          congr 1
          have harith : batch.length + (c - count) -
              (batch.length + (c - count)) % 10 =
              (batch ++ [(⟨count, seg.start, seg.end_,
                (translateSegmentText env target cache
                  (pyStrip seg.text)).1⟩ : SegmentData)]).length +
              ((0 + (c - (count + 1))) - (0 + (c - (count + 1))) % 10)
              := by
            simp only [List.length_append, List.length_cons,
              List.length_nil, hb9]
            omega
          have hsplit : (batch ++ ⟨count, seg.start, seg.end_,
              (translateSegmentText env target cache
                (pyStrip seg.text)).1⟩ ::
              processSegs env target (rest'.take (c - count - 1))
                (count + 1)
                (translateSegmentText env target cache
                  (pyStrip seg.text)).2) =
              ((batch ++ [⟨count, seg.start, seg.end_,
                (translateSegmentText env target cache
                  (pyStrip seg.text)).1⟩]) ++
              processSegs env target (rest'.take (c - count - 1))
                (count + 1)
                (translateSegmentText env target cache
                  (pyStrip seg.text)).2) := by
            simp
          rw [hsplit, harith, List.take_append]
          rw [show c - (count + 1) = c - count - 1 from by omega]
          simp [rowsOf]
        · rw [ih4]
          rw [const_view_update_progress]
          rfl
      · -- no flush: the new segment joins the in-memory batch
        rw [if_neg hflush]
        obtain ⟨ih1, ih2, ih3, ih4⟩ := ih (count + 1) seg.end_
          (batch ++ [⟨count, seg.start, seg.end_,
            (translateSegmentText env target cache
              (pyStrip seg.text)).1⟩])
          (translateSegmentText env target cache (pyStrip seg.text)).2
          db
          (evs ++ [⟨2, (if env.audioDuration > 0 then
            min (seg.end_ / env.audioDuration) 1 else 0),
            some ⟨count, seg.start, seg.end_,
              (translateSegmentText env target cache
                (pyStrip seg.text)).1⟩, none, false⟩])
          (by omega) (by simp only [List.length_cons] at h2 ⊢; omega)
          (by simp only [List.length_append, List.length_cons,
            List.length_nil] at hflush ⊢
              omega)
        refine ⟨ih1, ?_, ?_, ih4⟩
        · rw [ih2, hdatas]
          simp only [segmentEventOf, progressOf, List.map_cons,
            List.append_assoc, List.cons_append, List.nil_append]
          rfl
        · rw [ih3, hdatas]
          have hn : batch.length + 1 + (c - (count + 1)) -
              (batch.length + 1 + (c - (count + 1))) % 10 =
              batch.length + (c - count) -
              (batch.length + (c - count)) % 10 := by omega
          congr 2
          simp only [List.length_append, List.length_cons,
            List.length_nil, List.append_assoc, List.cons_append,
            List.nil_append]
          rw [hn]
          rfl

/-- `get_job` presence is unaffected by a status update. -/
theorem const_view_update_status (db : DB) (jid2 : String) (st : Nat)
    (err : Option String) (now jid : String) (c : Nat) :
    (Database.get_job (Database.update_job_status db jid2 st err now)
      jid).map (fun _ : JobRow => c) =
    (Database.get_job db jid).map (fun _ => c) := by
  have hf : ∀ j : JobRow, ((fun j : JobRow => if j.job_id = jid2 then
      (if err.getD "" ≠ "" then { j with status := st, error := err, updated_at := now }
       else { j with status := st, updated_at := now })
      else j) j).job_id = j.job_id := by
    intro j
    by_cases h : j.job_id = jid2
    · by_cases he : err.getD "" ≠ "" <;> simp [h, he]
    · simp [h]
  rw [show Database.update_job_status db jid2 st err now =
      { db with jobs := db.jobs.map (fun j => if j.job_id = jid2 then
        (if err.getD "" ≠ "" then { j with status := st, error := err, updated_at := now }
         else { j with status := st, updated_at := now })
        else j) } from rfl,
    get_job_map db jid _ hf]
  cases Database.get_job db jid <;> rfl

/-- `get_job` presence is unaffected by a duration update. -/
theorem const_view_update_audio (db : DB) (jid2 : String) (d : ℚ)
    (now jid : String) (c : Nat) :
    (Database.get_job
      (Database.update_job_audio_duration db jid2 d now) jid).map
        (fun _ : JobRow => c) =
    (Database.get_job db jid).map (fun _ => c) := by
  have hf : ∀ j : JobRow, ((fun j : JobRow => if j.job_id = jid2 then
      { j with audio_duration_seconds := some d, updated_at := now }
      else j) j).job_id = j.job_id := by
    intro j
    by_cases h : j.job_id = jid2 <;> simp [h]
  rw [show Database.update_job_audio_duration db jid2 d now =
      { db with jobs := db.jobs.map (fun j => if j.job_id = jid2 then
        { j with audio_duration_seconds := some d, updated_at := now }
        else j) } from rfl,
    get_job_map db jid _ hf]
  cases Database.get_job db jid <;> rfl

/-- The rows written for a batch keep the batch's indices. -/
theorem rowsOf_idx (jid now : String) (l : List SegmentData) :
    (rowsOf jid now l).map (fun s => s.idx) = l.map (fun s => s.idx) := by
  simp [rowsOf, List.map_map, Function.comp]

/-- Two strictly `idx`-ascending lists that are permutations of each
other are equal. -/
theorem eq_of_perm_of_pairwise_lt {l l' : List SegmentRow}
    (h : l.Perm l')
    (h1 : l.Pairwise (fun a b => a.idx < b.idx))
    (h2 : l'.Pairwise (fun a b => a.idx < b.idx)) : l = l' := by
  have hs1 : List.Sorted idxLE l :=
    List.Pairwise.imp (fun hab => Or.inl hab) h1
  have hs2 : List.Sorted idxLE l' :=
    List.Pairwise.imp (fun hab => Or.inl hab) h2
  exact List.eq_of_perm_of_sorted h hs1 hs2

/-- All rows written by a flush belong to the job. -/
theorem filter_job_rowsOf (jid now : String) (l : List SegmentData) :
    (rowsOf jid now l).filter (fun s => s.job_id = jid) =
      rowsOf jid now l := by
  apply List.filter_eq_self.2
  intro r hr
  obtain ⟨s, hs, hmap⟩ := List.mem_map.1 hr
  rw [← hmap]
  simp

/-- C2 amended: when a RUNNING job's cancel flag has been set, the next
segment boundary stops the engine: it stops consuming the recognition
runtime, sets status=CANCELED and publishes the CANCELED terminal event
as the last event — but it does NOT persist the batched not-yet-flushed
segments: after the terminal event `get_segments` (hence GetTranscript)
returns exactly the first 10·⌊k/10⌋ of the k segments that were streamed
to subscribers, i.e. only the full batches of ten flushed before the
boundary. -/
theorem c2_cancel_discards_unflushed (env : RunEnv) (db : DB)
    (jid path model : String) (language : Option String)
    (translate : Bool) (ttl : Option String) (c : Nat)
    (h1 : env.fileExists = true)
    (h2 : env.modelPath.isSome = true)
    (h3 : env.loadOk = true)
    (hc : env.cancelObservedAt = some c)
    (hcl : c ≤ env.segments.length)
    (htgt : unsupportedTarget (targetLanguage ttl translate) = false)
    (hfresh : jobSegs db jid = []) :
    (run_job env db jid path model language translate ttl).1 = false ∧
    (run_job env db jid path model language translate ttl).2.2 =
      ⟨2, 0, none, none, false⟩ ::
        ((processSegs env (targetLanguage ttl translate)
          (env.segments.take c) 0 []).map (segmentEventOf env) ++
         [⟨5, 0, none, none, true⟩]) ∧
    ((run_job env db jid path model language translate
        ttl).2.2.filterMap (fun e => e.segment)) =
      processSegs env (targetLanguage ttl translate)
        (env.segments.take c) 0 [] ∧
    ((Database.get_job (run_job env db jid path model language translate
        ttl).2.1 jid).map (fun j => j.status) =
      (Database.get_job db jid).map (fun _ => 5)) ∧
    Database.get_segments
        (run_job env db jid path model language translate ttl).2.1 jid
        (-1) =
      rowsOf jid env.now ((processSegs env (targetLanguage ttl translate)
        (env.segments.take c) 0 []).take (c - c % 10)) := by
  obtain ⟨mp, hmp⟩ := Option.isSome_iff_exists.1 h2
  have hrun : run_job env db jid path model language translate ttl =
      runLoop env jid (targetLanguage ttl translate) env.segments 0 0 []
        []
        (if env.audioDuration > 0 then
          Database.update_job_audio_duration
            (Database.update_job_status db jid 2 none env.now) jid
            env.audioDuration env.now
         else Database.update_job_status db jid 2 none env.now)
        [⟨2, 0, none, none, false⟩] := by
    simp [run_job, htgt, h1, hmp, h3]
  obtain ⟨l1, l2, l3, l4⟩ := runLoop_cancel_spec env jid
    (targetLanguage ttl translate) c hc env.segments 0 0 [] []
    (if env.audioDuration > 0 then
      Database.update_job_audio_duration
        (Database.update_job_status db jid 2 none env.now) jid
        env.audioDuration env.now
     else Database.update_job_status db jid 2 none env.now)
    [⟨2, 0, none, none, false⟩]
    (by omega) (by simpa using hcl) (by simp)
  have hdlen : (processSegs env (targetLanguage ttl translate)
      (env.segments.take c) 0 []).length = c := by
    rw [processSegs_length]
    simp [List.length_take]
    omega
  have hstartsegs : (if env.audioDuration > 0 then
      Database.update_job_audio_duration
        (Database.update_job_status db jid 2 none env.now) jid
        env.audioDuration env.now
     else Database.update_job_status db jid 2 none env.now).segments =
      db.segments := by
    by_cases hdur : env.audioDuration > 0 <;> simp [hdur] <;> rfl
  have hstartview : ((Database.get_job (if env.audioDuration > 0 then
      Database.update_job_audio_duration
        (Database.update_job_status db jid 2 none env.now) jid
        env.audioDuration env.now
     else Database.update_job_status db jid 2 none env.now) jid).map
      (fun _ : JobRow => (5 : Nat))) =
      (Database.get_job db jid).map (fun _ => 5) := by
    by_cases hdur : env.audioDuration > 0
    · rw [if_pos hdur, const_view_update_audio,
        const_view_update_status]
    · rw [if_neg hdur, const_view_update_status]
  have hevents : (run_job env db jid path model language translate
      ttl).2.2 = ⟨2, 0, none, none, false⟩ ::
      ((processSegs env (targetLanguage ttl translate)
        (env.segments.take c) 0 []).map (segmentEventOf env) ++
       [⟨5, 0, none, none, true⟩]) := by
    rw [hrun, l2]
    simp
  have hsegfinal : (run_job env db jid path model language translate
      ttl).2.1.segments = db.segments ++
      rowsOf jid env.now ((processSegs env (targetLanguage ttl translate)
        (env.segments.take c) 0 []).take (c - c % 10)) := by
    rw [hrun, l3, hstartsegs]
    simp
  refine ⟨by rw [hrun]; exact l1, hevents, ?_, ?_, ?_⟩
  · rw [hevents]
    simp only [List.filterMap_cons, List.filterMap_append,
      List.filterMap_map]
    have hcomp : ((fun e : Event => e.segment) ∘ segmentEventOf env) =
        some := by
      funext sd
      rfl
    rw [hcomp, List.filterMap_some]
    simp [segmentEventOf]
  · rw [hrun, l4, hstartview]
  · -- identify the sorted view with the flushed rows
    have hidx : (processSegs env (targetLanguage ttl translate)
        (env.segments.take c) 0 []).map (fun s => s.idx) =
        List.range' 0 c := by
      rw [processSegs_idx]
      congr 1
      simp [List.length_take]
      omega
    have hflushidx : (rowsOf jid env.now ((processSegs env
        (targetLanguage ttl translate) (env.segments.take c) 0 []).take
        (c - c % 10))).map (fun s => s.idx) =
        List.take (c - c % 10) (List.range' 0 c) := by
      rw [rowsOf_idx, List.map_take, hidx]
    have hrangelt : (List.take (c - c % 10)
        (List.range' 0 c)).Pairwise (fun a b => a < b) :=
      List.Pairwise.sublist (List.take_sublist _ _)
        (List.pairwise_lt_range' 0 c)
    have hflushlt : (rowsOf jid env.now ((processSegs env
        (targetLanguage ttl translate) (env.segments.take c) 0 []).take
        (c - c % 10))).Pairwise (fun a b => a.idx < b.idx) := by
      apply List.pairwise_map.1
      rw [hflushidx]
      exact hrangelt
    have hjs : jobSegs (run_job env db jid path model language translate
        ttl).2.1 jid = rowsOf jid env.now ((processSegs env
        (targetLanguage ttl translate) (env.segments.take c) 0 []).take
        (c - c % 10)) := by
      unfold jobSegs
      rw [hsegfinal, List.filter_append]
      rw [show db.segments.filter
        (fun s => (s.job_id = jid : Bool)) = [] from hfresh]
      rw [List.nil_append]
      exact filter_job_rowsOf jid env.now _
    have hperm : (Database.get_segments (run_job env db jid path model
        language translate ttl).2.1 jid (-1)).Perm
        (rowsOf jid env.now ((processSegs env
          (targetLanguage ttl translate) (env.segments.take c) 0
          []).take (c - c % 10))) := by
      have h := get_segments_perm (run_job env db jid path model
        language translate ttl).2.1 jid
      rw [hjs] at h
      exact h
    have hndflush : ((rowsOf jid env.now ((processSegs env
        (targetLanguage ttl translate) (env.segments.take c) 0 []).take
        (c - c % 10))).map (fun s => s.idx)).Nodup := by
      rw [hflushidx]
      exact hrangelt.imp (fun h => Nat.ne_of_lt h)
    have hsortlt : (Database.get_segments (run_job env db jid path model
        language translate ttl).2.1 jid (-1)).Pairwise
        (fun a b => a.idx < b.idx) := by
      refine pairwise_lt_of_sorted_nodup _ (get_segments_sorted _ jid
        (-1)) ?_
      exact ((hperm.map (fun s => s.idx)).nodup_iff).2 hndflush
    exact eq_of_perm_of_pairwise_lt hperm hsortlt hflushlt

/-- C2 counterexample: with one streamed segment and the cancel flag
observed at the next boundary, the subscriber receives the segment
(idx 0, start 0, end 5, text "hello") in the event stream, yet after the
CANCELED terminal event the store holds no segment rows at all — the
one-element batch was discarded, not persisted, so GetTranscript does
not return the segments already streamed. -/
theorem c2_counterexample :
    ((run_job c2Env ⟨[c2Job], []⟩ "j2" "/audio/a.wav" "base"
        (some "auto") false none).2.2.filterMap
          (fun e => e.segment) = [⟨0, 0, 5, "hello"⟩]) ∧
    Database.get_segments
        (run_job c2Env ⟨[c2Job], []⟩ "j2" "/audio/a.wav" "base"
          (some "auto") false none).2.1 "j2" (-1) = [] := by
  norm_num [run_job, runLoop, c2Env, targetLanguage, unsupportedTarget,
    cancelObserved, translateSegmentText,
    _SUPPORTED_TRANSLATION_LANGUAGES, Database.get_segments,
    Database.update_job_status, Database.update_job_audio_duration]
  rfl

/-- Witness for the amended C2 at the concrete one-segment cancellation
scenario: the run returns completed=false and the store holds none of
the streamed-but-unflushed segments. -/
theorem c2_witness :
    (run_job c2Env ⟨[c2Job], []⟩ "j2" "/audio/a.wav" "base"
        (some "auto") false none).1 = false ∧
    Database.get_segments
        (run_job c2Env ⟨[c2Job], []⟩ "j2" "/audio/a.wav" "base"
          (some "auto") false none).2.1 "j2" (-1) = [] := by
  have h := c2_cancel_discards_unflushed c2Env ⟨[c2Job], []⟩ "j2"
    "/audio/a.wav" "base" (some "auto") false none 1 rfl rfl rfl rfl
    (by decide) rfl rfl
  refine ⟨h.1, ?_⟩
  rw [h.2.2.2.2]
  rfl

end Scribe
